import Mathlib

/-!
# Style resolution of map features: rule-key deduplication, captions, stylist

Shallow embedding of `indexer/drawing_rule_def.cpp` (`less_key`, `equal_key`,
`MakeUnique`) and `drape_frontend/stylist.cpp` (`IsHatchingTerritoryChecker`,
`CaptionDescription::Init`, `Stylist::ProcessKey`, `Stylist::Stylist`).

Conventions of the embedding:
* a `std::vector` is a `List`; an in-place algorithm returns the new contents;
* `int` values that are only compared are `Int`; `uint32_t` type codes are `Nat`;
* a `std::string` is a `List Char`, one element per `char`, so `size()` is `length`;
* a rule pointer is an `Option`, `nullptr` being `none`;
* `ASSERT` is compiled out (release build): it has no effect on the state.
-/

namespace drule

/-! ## Data model (`drawing_rule_def.hpp`) -/

/-- Modelled from the spec: the enumeration `rule_type_t` is declared in
`drawing_rule_def.hpp`, which is not among the sources; the kinds are distinct
integer codes stored in `Key::m_type`. Code of kind Line. -/
def line : Int := 0

/-- Modelled from the spec: code of kind Area (see `line`). -/
def area : Int := 1

/-- Modelled from the spec: code of kind Symbol (see `line`). -/
def symbol : Int := 2

/-- Modelled from the spec: code of kind Caption (see `line`). -/
def caption : Int := 3

/-- Modelled from the spec: code of kind Circle (see `line`). -/
def circle : Int := 4

/-- Modelled from the spec: code of kind PathText (see `line`). -/
def pathtext : Int := 5

/-- Modelled from the spec: code of kind Waymarker (see `line`). -/
def waymarker : Int := 6

/-- Modelled from the spec: code of kind Shield (see `line`). -/
def shield : Int := 7

/-- Modelled from the spec: the class `drule::Key` is declared in
`drawing_rule_def.hpp`, which is not among the sources. A key has a kind
(`m_type`), a priority, a hatching flag, and an identity used for equality and
registry lookup (`m_scale`, `m_index` together with the kind). -/
structure Key where
  m_scale : Nat
  m_type : Int
  m_index : Nat
  m_priority : Int
  m_hatching : Bool
deriving DecidableEq, Repr

/-- Modelled from the spec: `Key::operator==` (declared in the missing header)
compares the identity of the two keys; priority and hatching flag are not part
of the identity. -/
def keyEq (r1 r2 : Key) : Bool :=
  r1.m_scale == r2.m_scale && r1.m_type == r2.m_type && r1.m_index == r2.m_index

/-! ## `less_key`, `equal_key`, `MakeUnique` (`drawing_rule_def.cpp`) -/

/-- The comparator `less_key::operator()`. -/
def less_key (r1 r2 : Key) : Bool :=
  if r1.m_type = r2.m_type then
    if r1.m_hatching ≠ r2.m_hatching then r1.m_hatching
    else decide (r1.m_priority > r2.m_priority)
  else decide (r1.m_type < r2.m_type)

/-- The predicate `equal_key::operator()`. -/
def equal_key (r1 r2 : Key) : Bool :=
  if r1.m_type = line then keyEq r1 r2
  else
    if r1.m_type = r2.m_type then
      if r1.m_type = area ∧ r1.m_hatching = true ∧ r2.m_hatching = false then false
      else true
    else false

/-- Insertion of `x` in front of the first element that is not less than `x`
(the step of a stable insertion sort). -/
def sortInsert {α : Type} (lt : α → α → Bool) (x : α) : List α → List α
  | [] => [x]
  | y :: ys => if lt y x then y :: sortInsert lt x ys else x :: y :: ys

/-- The call `std::sort(first, last, comp)`: one admissible result, computed by insertion
sort. `std::sort` leaves the relative order of equivalent elements open, so what is proved
of the program rests only on `IsSortOf`, the postcondition of the call. -/
def sort {α : Type} (lt : α → α → Bool) : List α → List α
  | [] => []
  | x :: xs => sortInsert lt x (sort lt xs)

/-- The loop of `std::unique`: `r` is the last element kept so far. -/
def uniqueFrom {α : Type} (p : α → α → Bool) (r : α) : List α → List α
  | [] => []
  | x :: xs => if p r x then uniqueFrom p r xs else x :: uniqueFrom p x xs

/-- The call `std::unique(first, last, p)` followed by the `resize` to the returned
end: the first element of every run of consecutive `p`-equivalent elements. -/
def unique {α : Type} (p : α → α → Bool) : List α → List α
  | [] => []
  | x :: xs => x :: uniqueFrom p x xs

/-- The test `k.m_type == drule::line`: the key is of kind Line. -/
def isLine (k : Key) : Bool := decide (k.m_type = line)

/-- The function `MakeUnique(KeysT & keys)`: returns the new contents of `keys`. -/
def MakeUnique (keys : List Key) : List Key :=
  unique equal_key (sort less_key keys)

/-- The postcondition of `std::sort(first, last, comp)`: `sorted` is a permutation of the
input in which no element is followed by one that `comp` puts before it. -/
def IsSortOf {α : Type} (lt : α → α → Bool) (sorted input : List α) : Prop :=
  sorted.Perm input ∧ sorted.Pairwise (fun a b => lt b a = false)

/-- The function `MakeUnique(KeysT & keys)` when the call of `std::sort` at line 53 leaves
`sorted` in `keys`: the contents of `keys` after line 54. -/
def MakeUniqueOf (sorted : List Key) : List Key :=
  unique equal_key sorted

/-- A class `P` of keys that `MakeUnique` collapses to one key: two keys of the class
are `equal_key`-equivalent; a key of the class is not equivalent to an earlier key outside
the class; the class is convex for the order `less_key`. -/
structure CollapsedClass (P : Key → Bool) : Prop where
  collapse : ∀ a b, P a = true → P b = true → equal_key a b = true
  keep : ∀ a b, less_key b a = false → P a = false → P b = true → equal_key a b = false
  convex : ∀ a b c, less_key b a = false → less_key c b = false →
    P a = true → P b = false → P c = false

/-- The ordering of rule keys in the words of the data model: the primary key is the kind;
within Area kind a hatching key sorts before a non-hatching one; otherwise the higher
priority sorts first. -/
def less_key_model (r1 r2 : Key) : Bool :=
  if r1.m_type ≠ r2.m_type then decide (r1.m_type < r2.m_type)
  else if r1.m_type = area ∧ r1.m_hatching ≠ r2.m_hatching then r1.m_hatching
  else decide (r1.m_priority > r2.m_priority)

/-- The sort key of the lexicographic order (kind ascending, hatching-true first, priority
descending): the kind, then 0 for a hatching key and 1 otherwise, then the negated
priority. -/
def lexKey (k : Key) : Lex (Int × Lex (Int × Int)) :=
  toLex (k.m_type, toLex ((if k.m_hatching = true then 0 else 1), -k.m_priority))

end drule

/-! ## Collaborators of the stylist (declared outside the sources) -/

/-- A `std::string`: the sequence of its `char`s. -/
abbrev CppString := List Char

namespace feature

/-- Modelled from the spec: `feature::GeomType` (declared in a header that is not
among the sources), the geometry kinds Point, Line and Area. -/
inductive GeomType where
  | Point
  | Line
  | Area
deriving DecidableEq, Repr

/-- Modelled from the spec: `feature::NameParamsOut` (not among the sources);
`primary` is what `GetPrimary()` returns, `secondary` the secondary/aux name. -/
structure NameParamsOut where
  primary : CppString
  secondary : CppString
deriving DecidableEq, Repr

/-- The accessor `NameParamsOut::GetPrimary()`. -/
def NameParamsOut.GetPrimary (out : NameParamsOut) : CppString := out.primary

end feature

namespace m2

/-- Modelled from the spec: the bounding rectangle `m2::RectD`, given by its two side
lengths (doubles, read as rationals; they are only compared). -/
structure RectD where
  SizeX : ℚ
  SizeY : ℚ

end m2

/-- Modelled from the spec: the feature accessor `FeatureType` (not among the sources):
type-code set in iteration order (`feature::TypesHolder`), geometry kind, name lookups
by device language (translit allowed), house number and limit rect by zoom. -/
structure FeatureType where
  types : List Nat
  GetGeomType : feature.GeomType
  GetPreferredNames : Int → feature.NameParamsOut
  GetReadableName : Int → feature.NameParamsOut
  GetHouseNumber : CppString
  GetLimitRect : Nat → m2.RectD

namespace drule

/-- Modelled from the spec: a rule body `drule::BaseRule` (not among the sources); each
flag tells whether the payload accessor of that name returns a non-null pointer. -/
structure BaseRule where
  ident : Nat
  GetLine : Bool
  GetArea : Bool
  GetSymbol : Bool
  GetShield : Bool
  caption0 : Bool
  caption1 : Bool
deriving DecidableEq, Repr

/-- The accessor `BaseRule::GetCaption(i) != nullptr`. -/
def BaseRule.GetCaption (r : BaseRule) (i : Nat) : Bool :=
  if i = 0 then r.caption0 else if i = 1 then r.caption1 else false

/-- The function `CalcAreaBySizeDepth(f)`, read over the reals: `r` is the value of
`f.GetLimitRectChecked()`, `std::log2` is the real logarithm to base 2, and the constants
`kBaseDepthBgBySize`, `kDepthRangeBgBySize` of the missing header are parameters. The
`ASSERT` of line 71 is compiled out. The code computes in `double`: the two agree where
the `double` computation is exact, and rounding is not part of this reading. -/
noncomputable def CalcAreaBySizeDepth (kBaseDepthBgBySize kDepthRangeBgBySize : ℝ)
    (r : m2.RectD) : ℝ :=
  let areaSize : ℝ := (r.SizeX : ℝ) * (r.SizeY : ℝ)
  let areaSizeCompact : ℝ := Real.logb 2 areaSize
  let minSize : ℝ := -37
  let maxSize : ℝ := 13
  let stretchFactor : ℝ := kDepthRangeBgBySize / (maxSize - minSize)
  kBaseDepthBgBySize + (maxSize - areaSizeCompact) * stretchFactor

end drule

/-- Modelled from the spec: the classification dictionary `Classificator` (not among
the sources). `GetSuitable t zoom geom` is the key list that
`GetObject(t)->GetSuitable(zoom, geom, keys)` appends to an empty `keys`;
`GetMaxOverlaysPriority t` is `GetObject(t)->GetMaxOverlaysPriority()`. -/
structure Classificator where
  GetTypeByPath : List String → Nat
  GetSuitable : Nat → Int → feature.GeomType → List drule.Key
  GetMaxOverlaysPriority : Nat → Int
  GetCoastType : Nat

/-- Modelled from the spec: the constants of namespace `scales` (not among the sources). -/
structure Scales where
  GetUpperWorldScale : Int
  GetUpperStyleScale : Int
  GetPointHousenumbersScale : Int
  GetEpsilonForHousenumbers : Int → ℚ

/-- Everything the stylist consults: the classifier `classif()`, the rule registry
`drule::rules().Find`, `feature::FilterRulesByRuntimeSelector`, the checker helper
`PrepareToMatch` and the `scales` constants. -/
structure Env where
  cl : Classificator
  Find : drule.Key → drule.BaseRule
  FilterRulesByRuntimeSelector : FeatureType → Nat → List drule.Key → List drule.Key
  PrepareToMatch : Nat → Nat → Nat
  sc : Scales

namespace df

open drule feature

/-! ## `IsHatchingTerritoryChecker` (`stylist.cpp`) -/

/-- The members of `IsHatchingTerritoryChecker` (inherited from the base checker). -/
structure IsHatchingTerritoryChecker (τ : Type) where
  m_types : List τ
  m_type3end : Nat

/-- The constructor `IsHatchingTerritoryChecker::IsHatchingTerritoryChecker()`, over the
classifier lookup `GetTypeByPath`. -/
def IsHatchingTerritoryChecker.create {τ : Type} (GetTypeByPath : List String → τ) :
    IsHatchingTerritoryChecker τ :=
  let arr3 : List (List String) := [["boundary", "protected_area", "1"]]
  let m_types := arr3.map GetTypeByPath
  let m_type3end := m_types.length
  let arr2 : List (List String) :=
    [["leisure", "nature_reserve"], ["boundary", "national_park"], ["landuse", "military"]]
  { m_types := m_types ++ arr2.map GetTypeByPath, m_type3end := m_type3end }

/-- The method `IsHatchingTerritoryChecker::IsMatched(type)`, over the helper
`PrepareToMatch(type, level)`. -/
def IsHatchingTerritoryChecker.IsMatched {τ : Type} [DecidableEq τ]
    (PrepareToMatch : τ → Nat → τ) (c : IsHatchingTerritoryChecker τ) (type : τ) : Bool :=
  if PrepareToMatch type 3 ∈ c.m_types.take c.m_type3end then true
  else decide (PrepareToMatch type 2 ∈ c.m_types.drop c.m_type3end)

/-! ## `CaptionDescription::Init` (`stylist.cpp`) -/

/-- The call `s.find(pat)` of `std::string`, scanning from offset `i`: the first
position at which `pat` occurs in `s`, `none` standing for `npos`. -/
def findFrom (pat : CppString) : CppString → Nat → Option Nat
  | [], i => if pat.isEmpty then some i else none
  | c :: cs, i => if pat.isPrefixOf (c :: cs) then some i else findFrom pat cs (i + 1)

/-- The call `s.find(pat)` of `std::string`. -/
def find (s pat : CppString) : Option Nat := findFrom pat s 0

/-- The members of `CaptionDescription`, default-constructed empty. -/
structure CaptionDescription where
  m_mainText : CppString := []
  m_auxText : CppString := []
  m_houseNumberText : CppString := []
deriving DecidableEq, Repr

/-- The predicate `CaptionDescription::IsNameExists()`. -/
def CaptionDescription.IsNameExists (self : CaptionDescription) : Bool :=
  !self.m_mainText.isEmpty

/-- The predicate `CaptionDescription::IsHouseNumberExists()`. -/
def CaptionDescription.IsHouseNumberExists (self : CaptionDescription) : Bool :=
  !self.m_houseNumberText.isEmpty

/-- The constant `kLongCaptionsMaxZoom` of `Init`. -/
def kLongCaptionsMaxZoom : Int := 4

/-- The constant `kLowWorldMaxTextSize` of `Init`. -/
def kLowWorldMaxTextSize : Nat := 50

/-- The constant `kMaxTextSize` of `Init`. -/
def kMaxTextSize : Nat := 200

/-- The constant `kHousenumbersMinZoom` of `Init`. -/
def kHousenumbersMinZoom : Int := 16

/-- First step of `Init` (lines 47-61): the name lookup; returns the pair
(`m_mainText`, `m_auxText`) after line 61. -/
def CaptionDescription.fetchNames (sc : Scales) (self : CaptionDescription) (f : FeatureType)
    (deviceLang : Int) (zoomLevel : Int) (geomType : GeomType) (auxCaptionExists : Bool) :
    CppString × CppString :=
  if zoomLevel > sc.GetUpperWorldScale ∧ (auxCaptionExists = true ∨ geomType = GeomType.Line) then
    let out := f.GetPreferredNames deviceLang
    (out.GetPrimary, out.secondary)
  else
    let out := f.GetReadableName deviceLang
    (out.GetPrimary, self.m_auxText)

/-- Truncation step of `Init` (lines 73-76). -/
def truncateMainText (mainText : CppString) : CppString :=
  if mainText.length > kMaxTextSize then mainText.take kMaxTextSize ++ ['.', '.', '.']
  else mainText

/-- The method `CaptionDescription::Init(f, deviceLang, zoomLevel, geomType,
auxCaptionExists)`: returns the new state of the descriptor `self`. -/
def CaptionDescription.Init (sc : Scales) (self : CaptionDescription) (f : FeatureType)
    (deviceLang : Int) (zoomLevel : Int) (geomType : GeomType) (auxCaptionExists : Bool) :
    CaptionDescription :=
  let names := self.fetchNames sc f deviceLang zoomLevel geomType auxCaptionExists
  let mainText := names.1
  let auxText := names.2
  if zoomLevel ≤ kLongCaptionsMaxZoom ∧ mainText.length > kLowWorldMaxTextSize then
    { self with m_mainText := [], m_auxText := [] }
  else
    let mainText := truncateMainText mainText
    if geomType ≠ GeomType.Line ∧ zoomLevel ≥ kHousenumbersMinZoom ∧
        (auxCaptionExists = true ∨ mainText.isEmpty = true) then
      let houseNumberText := f.GetHouseNumber
      if houseNumberText.isEmpty = false ∧ mainText.isEmpty = false ∧
          find houseNumberText mainText ≠ none then
        { m_mainText := [], m_auxText := auxText, m_houseNumberText := houseNumberText }
      else
        { m_mainText := mainText, m_auxText := auxText, m_houseNumberText := houseNumberText }
    else
      { self with m_mainText := mainText, m_auxText := auxText }

/-! ## `Stylist` (`stylist.cpp`) -/

/-- The members of `Stylist`, default-constructed: null rule pointers, no line rules,
empty caption descriptor, flags unset. -/
structure Stylist where
  m_symbolRule : Option BaseRule := none
  m_captionRule : Option BaseRule := none
  m_houseNumberRule : Option BaseRule := none
  m_pathtextRule : Option BaseRule := none
  m_shieldRule : Option BaseRule := none
  m_areaRule : Option BaseRule := none
  m_hatchingRule : Option BaseRule := none
  m_lineRules : List BaseRule := []
  m_captionDescriptor : CaptionDescription := {}
  m_isCoastline : Bool := false
  m_auxCaptionFound : Bool := false
deriving DecidableEq, Repr

/-- The method `Stylist::ProcessKey(f, key)`: returns the new state of the stylist. -/
def Stylist.ProcessKey (env : Env) (self : Stylist) (_f : FeatureType) (key : Key) : Stylist :=
  let dRule := env.Find key
  if key.m_type = symbol then
    { self with m_symbolRule := some dRule }
  else if key.m_type = pathtext ∨ key.m_type = caption then
    let self1 := { self with m_auxCaptionFound := dRule.GetCaption 1 }
    if key.m_type = caption then
      { self1 with m_captionRule := some dRule }
    else
      { self1 with m_pathtextRule := some dRule }
  else if key.m_type = shield then
    { self with m_shieldRule := some dRule }
  else if key.m_type = line then
    { self with m_lineRules := self.m_lineRules ++ [dRule] }
  else if key.m_type = area then
    if key.m_hatching = true then
      { self with m_hatchingRule := some dRule }
    else
      { self with m_areaRule := some dRule }
  else
    self

/-- The value `std::numeric_limits<int>::min()`. -/
def INT_MIN : Int := -2147483648

/-- The loop of lines 163-171 over the remaining types: returns `mainOverlayType`. -/
def mainOverlayLoop (cl : Classificator) : List Nat → Int → Nat → Nat
  | [], _, mainOverlayType => mainOverlayType
  | t :: ts, overlaysMaxPriority, mainOverlayType =>
    let priority := cl.GetMaxOverlaysPriority t
    if priority > overlaysMaxPriority then mainOverlayLoop cl ts priority t
    else mainOverlayLoop cl ts overlaysMaxPriority mainOverlayType

/-- Lines 155-172 of the constructor: the main overlay type. -/
def mainOverlayType (cl : Classificator) (types : List Nat) : Nat :=
  if types.length = 1 then types.headD 0
  else mainOverlayLoop cl types INT_MIN 0

/-- The inner loop of lines 184-195 over the keys `typeKeys` of one type `t`: the keys
pushed to `keys`. -/
def typeKeysLoop (t mainOverlayType : Nat) (hasHatching : Bool) : List Key → List Key
  | [] => []
  | k :: ks =>
    if t = mainOverlayType ∨
        (k.m_type ≠ caption ∧ k.m_type ≠ symbol ∧ k.m_type ≠ shield ∧ k.m_type ≠ pathtext) then
      (if hasHatching = true ∧ k.m_type = area then { k with m_hatching := true } else k) ::
        typeKeysLoop t mainOverlayType hasHatching ks
    else
      typeKeysLoop t mainOverlayType hasHatching ks

/-- The outer loop of lines 178-196 over the types: the accumulated `keys`. -/
def keysLoop (env : Env) (zoomLevel : Nat) (geomType : GeomType) (mainOverlayType : Nat) :
    List Nat → List Key
  | [] => []
  | t :: ts =>
    let typeKeys := env.cl.GetSuitable t zoomLevel geomType
    let hasHatching :=
      (IsHatchingTerritoryChecker.create env.cl.GetTypeByPath).IsMatched env.PrepareToMatch t
    typeKeysLoop t mainOverlayType hasHatching typeKeys ++
      keysLoop env zoomLevel geomType mainOverlayType ts

/-- Lines 213-255 of the constructor: the house-number rule, once the descriptor says that
a house number exists. -/
def houseNumberStep (env : Env) (self : Stylist) (f : FeatureType) (zoomLevel : Nat)
    (geomType : GeomType) (mainOverlayType : Nat) : Stylist :=
  let isGood : Bool :=
    if (zoomLevel : Int) < env.sc.GetUpperStyleScale then
      if geomType = GeomType.Area then
        let r := f.GetLimitRect zoomLevel
        decide (min r.SizeX r.SizeY > env.sc.GetEpsilonForHousenumbers zoomLevel)
      else
        decide ((zoomLevel : Int) ≥ env.sc.GetPointHousenumbersScale)
    else true
  if isGood = true then
    let addressType := env.cl.GetTypeByPath ["building", "address"]
    if mainOverlayType = addressType then
      { self with m_houseNumberRule := self.m_captionRule }
    else
      match env.cl.GetSuitable addressType zoomLevel geomType with
      | [] => self
      | k :: _ => { self with m_houseNumberRule := some (env.Find k) }
  else self

/-- Lines 209-262 of the constructor: caption resolution after the keys are processed. -/
def captionStep (env : Env) (self : Stylist) (f : FeatureType) (zoomLevel : Nat)
    (deviceLang : Int) (geomType : GeomType) (mainOverlayType : Nat) : Stylist :=
  if self.m_captionRule ≠ none ∨ self.m_pathtextRule ≠ none then
    let s1 := { self with m_captionDescriptor :=
      self.m_captionDescriptor.Init env.sc f deviceLang zoomLevel geomType self.m_auxCaptionFound }
    let s2 :=
      if s1.m_captionDescriptor.IsHouseNumberExists = true then
        houseNumberStep env s1 f zoomLevel geomType mainOverlayType
      else s1
    if s2.m_captionDescriptor.IsNameExists = false then
      { s2 with m_captionRule := none, m_pathtextRule := none }
    else s2
  else self

/-- Lines 152-198 of the constructor: the key set after the runtime selector filter. -/
def Stylist.collectKeys (env : Env) (f : FeatureType) (zoomLevel : Nat) : List Key :=
  env.FilterRulesByRuntimeSelector f zoomLevel
    (keysLoop env zoomLevel f.GetGeomType (mainOverlayType env.cl f.types) f.types)

/-- The constructor `Stylist::Stylist(f, zoomLevel, deviceLang)`: the decision built. -/
def Stylist.ctor (env : Env) (f : FeatureType) (zoomLevel : Nat) (deviceLang : Int) : Stylist :=
  let types := f.types
  let mainType := mainOverlayType env.cl types
  let geomType := f.GetGeomType
  let keys := Stylist.collectKeys env f zoomLevel
  if keys.isEmpty = true then
    {}
  else
    let keys := MakeUnique keys
    let s := keys.foldl (fun (s : Stylist) key => s.ProcessKey env f key) {}
    let s := captionStep env s f zoomLevel deviceLang geomType mainType
    { s with m_isCoastline := decide (env.cl.GetCoastType ∈ types) }

/-- Lines 178-196 of the constructor: the key set accumulated before the runtime
selector filter. -/
def Stylist.accumulatedKeys (env : Env) (f : FeatureType) (zoomLevel : Nat) : List Key :=
  keysLoop env zoomLevel f.GetGeomType (mainOverlayType env.cl f.types) f.types

/-- The call `hatchingChecker(t)` of line 182. -/
def hasHatching (env : Env) (t : Nat) : Bool :=
  (IsHatchingTerritoryChecker.create env.cl.GetTypeByPath).IsMatched env.PrepareToMatch t

/-- Lines 191-193: the key pushed for `k`, tagged hatching when the type is a hatching
territory and `k` is of kind Area. -/
def tagHatching (hasHatching : Bool) (k : Key) : Key :=
  if hasHatching = true ∧ k.m_type = area then { k with m_hatching := true } else k

/-- The kinds tested at lines 188-189: Caption, Symbol, Shield, PathText. -/
def isOverlayKind (k : Key) : Bool :=
  decide (k.m_type = caption ∨ k.m_type = symbol ∨ k.m_type = shield ∨ k.m_type = pathtext)

/-- The single-valued rule slots of `Stylist` that `ProcessKey` assigns. -/
inductive Slot where
  | symbol
  | caption
  | pathtext
  | shield
  | area
  | hatching
deriving DecidableEq, Repr

/-- The rule pointer held in a slot. -/
def Stylist.slot (self : Stylist) : Slot → Option BaseRule
  | Slot.symbol => self.m_symbolRule
  | Slot.caption => self.m_captionRule
  | Slot.pathtext => self.m_pathtextRule
  | Slot.shield => self.m_shieldRule
  | Slot.area => self.m_areaRule
  | Slot.hatching => self.m_hatchingRule

/-- The slot that `ProcessKey` assigns for `key` (the `switch` of lines 94-147); `none`
for a Line key and for an unsupported kind. -/
def keySlot (key : Key) : Option Slot :=
  if key.m_type = symbol then some Slot.symbol
  else if key.m_type = pathtext ∨ key.m_type = caption then
    if key.m_type = caption then some Slot.caption else some Slot.pathtext
  else if key.m_type = shield then some Slot.shield
  else if key.m_type = line then none
  else if key.m_type = area then
    if key.m_hatching = true then some Slot.hatching else some Slot.area
  else none

/-- The `slot == nullptr` conjunct of the `ASSERT` that `ProcessKey` makes for `key`
(lines 97, 108, 114, 120, 132, 137); no such conjunct for a Line key or an unsupported
kind. -/
def Stylist.slotIsNull (self : Stylist) (key : Key) : Bool :=
  if key.m_type = symbol then self.m_symbolRule.isNone
  else if key.m_type = pathtext ∨ key.m_type = caption then
    if key.m_type = caption then self.m_captionRule.isNone else self.m_pathtextRule.isNone
  else if key.m_type = shield then self.m_shieldRule.isNone
  else if key.m_type = line then true
  else if key.m_type = area then
    if key.m_hatching = true then self.m_hatchingRule.isNone else self.m_areaRule.isNone
  else true

/-- The loop of lines 206-207 with the `slot == nullptr` assertions checked: true when
every key meets an empty slot. -/
def slotAssertsHold (env : Env) (f : FeatureType) : Stylist → List Key → Bool
  | _, [] => true
  | s, key :: keys => s.slotIsNull key && slotAssertsHold env f (s.ProcessKey env f key) keys

/-- Modelled from the spec: the helper `PrepareToMatch(type, level)` of the base checker
(not among the sources), over types given as paths: it truncates the path to at most
`level` levels. -/
def pathPrepareToMatch (type : List String) (level : Nat) : List String :=
  type.take level

/-- The checker over types given as paths: `GetTypeByPath` returns the path itself. -/
def pathChecker : IsHatchingTerritoryChecker (List String) :=
  IsHatchingTerritoryChecker.create id

/-- The geometry conjunct of the `ASSERT` that `ProcessKey` makes for `key` (lines 98,
108, 114, 120, 125, 129); an unsupported kind has no geometry conjunct. -/
def geomAssert (geomType : GeomType) (key : Key) : Bool :=
  if key.m_type = symbol then
    decide (geomType = GeomType.Point ∨ geomType = GeomType.Area)
  else if key.m_type = pathtext ∨ key.m_type = caption then
    if key.m_type = caption then
      decide (geomType = GeomType.Point ∨ geomType = GeomType.Area)
    else
      decide (geomType = GeomType.Line)
  else if key.m_type = shield then decide (geomType = GeomType.Line)
  else if key.m_type = line then decide (geomType = GeomType.Line)
  else if key.m_type = area then decide (geomType = GeomType.Area)
  else true

/-- Lines 152-207 of the constructor, for a non-empty key set: the state of the stylist
after the `ProcessKey` loop, before the test of line 209. -/
def Stylist.afterProcessKeys (env : Env) (f : FeatureType) (zoomLevel : Nat) : Stylist :=
  (MakeUnique (Stylist.collectKeys env f zoomLevel)).foldl
    (fun (s : Stylist) key => s.ProcessKey env f key) {}

end df


/-! ## Sample inputs -/

namespace sample

open drule feature

/-- Scale constants of a sample configuration. -/
def scales : Scales :=
  { GetUpperWorldScale := 9, GetUpperStyleScale := 19, GetPointHousenumbersScale := 18,
    GetEpsilonForHousenumbers := fun _ => 0 }

/-- A sample feature with the given types, geometry, primary and secondary names (the
same for every language) and house number. -/
def mkFeature (types : List Nat) (geom : GeomType) (primary secondary house : CppString) :
    FeatureType :=
  { types := types, GetGeomType := geom,
    GetPreferredNames := fun _ => { primary := primary, secondary := secondary },
    GetReadableName := fun _ => { primary := primary, secondary := [] },
    GetHouseNumber := house,
    GetLimitRect := fun _ => { SizeX := 1, SizeY := 1 } }

/-- A sample classifier: type codes 1 (coast), 10 (boundary-national_park),
11 (boundary-protected_area-1), 12 (leisure-nature_reserve), 13 (landuse-military),
20 (building-address); type 10 has one Area rule at every zoom for Area geometry. -/
def classificator : Classificator :=
  { GetTypeByPath := fun path =>
      if path = ["boundary", "national_park"] then 10
      else if path = ["boundary", "protected_area", "1"] then 11
      else if path = ["leisure", "nature_reserve"] then 12
      else if path = ["landuse", "military"] then 13
      else if path = ["building", "address"] then 20
      else 0,
    GetSuitable := fun t zoom geom =>
      if t = 10 ∧ geom = GeomType.Area then
        [{ m_scale := zoom.toNat, m_type := area, m_index := 0, m_priority := 100,
           m_hatching := false }]
      else [],
    GetMaxOverlaysPriority := fun _ => 0,
    GetCoastType := 1 }

/-- A sample environment: every key resolves to a rule body carrying all payloads, the
runtime selector keeps every key, `PrepareToMatch` leaves the sample codes unchanged. -/
def env : Env :=
  { cl := classificator,
    Find := fun k =>
      { ident := k.m_index, GetLine := true, GetArea := true, GetSymbol := true,
        GetShield := true, caption0 := true, caption1 := true },
    FilterRulesByRuntimeSelector := fun _ _ keys => keys,
    PrepareToMatch := fun t _ => t,
    sc := scales }

/-- A second sample classifier: besides the codes of `classificator`, type 30 has one
Caption rule at every zoom and building-address (20) has one Caption rule; types 30 and 20
have overlay priorities 50 and 10. -/
def captionClassificator : Classificator :=
  { GetTypeByPath := classificator.GetTypeByPath,
    GetSuitable := fun t zoom _ =>
      if t = 30 then
        [{ m_scale := zoom.toNat, m_type := caption, m_index := 3, m_priority := 50,
           m_hatching := false }]
      else if t = 20 then
        [{ m_scale := zoom.toNat, m_type := caption, m_index := 4, m_priority := 10,
           m_hatching := false }]
      else [],
    GetMaxOverlaysPriority := fun t => if t = 30 then 50 else if t = 20 then 10 else 0,
    GetCoastType := 1 }

/-- The sample environment over `captionClassificator`. -/
def captionEnv : Env :=
  { env with cl := captionClassificator }

/-- A sample classifier in which no type has overlay rules: every maximum overlay
priority is `std::numeric_limits<int>::min()`. -/
def noOverlayClassificator : Classificator :=
  { classificator with GetMaxOverlaysPriority := fun _ => df.INT_MIN }

/-- Line keys of scale 1 and priority 5 without the hatching flag, one for each given
index and in the given order: `less_key` distinguishes no two of them, `Key::operator==`
distinguishes those of different indices. -/
def tiedLineKeys (indices : List Nat) : List Key :=
  indices.map (fun i => ⟨1, line, i, 5, false⟩)

end sample

/-! # Properties -/

namespace drule

/-! ## The order `less_key` -/

theorem less_key_asymm (a b : Key) (h : less_key a b = true) : less_key b a = false := by
  unfold less_key at *
  rcases a with ⟨sa, ta, ia, pa, ha⟩
  rcases b with ⟨sb, tb, ib, pb, hb⟩
  simp only at h ⊢
  by_cases e1 : ta = tb
  · subst e1
    cases ha <;> cases hb <;> simp_all <;> omega
  · have e2 : ¬ tb = ta := fun e => e1 e.symm
    simp only [e1, e2, if_false, decide_eq_true_eq, decide_eq_false_iff_not] at h ⊢
    omega

theorem less_key_negtrans (a b c : Key) (h1 : less_key b a = false) (h2 : less_key c b = false) :
    less_key c a = false := by
  unfold less_key at *
  rcases a with ⟨sa, ta, ia, pa, ha⟩
  rcases b with ⟨sb, tb, ib, pb, hb⟩
  rcases c with ⟨sc, tc, ic, pc, hc⟩
  simp only at h1 h2 ⊢
  by_cases e1 : tb = ta <;> by_cases e2 : tc = tb <;> by_cases e3 : tc = ta <;>
    cases ha <;> cases hb <;> cases hc <;>
    simp_all <;> omega

/-! ## The sort -/

theorem sortInsert_perm {α : Type} (lt : α → α → Bool) (x : α) :
    ∀ l : List α, (sortInsert lt x l).Perm (x :: l)
  | [] => List.Perm.refl _
  | y :: ys => by
    unfold sortInsert
    by_cases h : lt y x = true
    · rw [if_pos h]
      exact ((sortInsert_perm lt x ys).cons y).trans (List.Perm.swap x y ys)
    · rw [if_neg h]

theorem sort_perm {α : Type} (lt : α → α → Bool) : ∀ l : List α, (sort lt l).Perm l
  | [] => List.Perm.refl _
  | x :: xs => (sortInsert_perm lt x (sort lt xs)).trans ((sort_perm lt xs).cons x)

theorem mem_sort {α : Type} (lt : α → α → Bool) (l : List α) (a : α) :
    a ∈ sort lt l ↔ a ∈ l :=
  (sort_perm lt l).mem_iff

theorem sortInsert_sorted {α : Type} (lt : α → α → Bool)
    (hasymm : ∀ a b, lt a b = true → lt b a = false)
    (hneg : ∀ a b c, lt b a = false → lt c b = false → lt c a = false) (x : α) :
    ∀ l : List α, l.Pairwise (fun a b => lt b a = false) →
      (sortInsert lt x l).Pairwise (fun a b => lt b a = false)
  | [], _ => List.pairwise_singleton _ _
  | y :: ys, hl => by
    unfold sortInsert
    rw [List.pairwise_cons] at hl
    by_cases h : lt y x = true
    · rw [if_pos h, List.pairwise_cons]
      refine ⟨fun z hz => ?_, sortInsert_sorted lt hasymm hneg x ys hl.2⟩
      rcases List.mem_cons.mp ((sortInsert_perm lt x ys).mem_iff.mp hz) with rfl | hz2
      · exact hasymm _ _ h
      · exact hl.1 z hz2
    · rw [if_neg h]
      have hyx : lt y x = false := by simpa using h
      refine List.pairwise_cons.mpr ⟨fun z hz => ?_, List.pairwise_cons.mpr hl⟩
      rcases List.mem_cons.mp hz with rfl | hz2
      · exact hyx
      · exact hneg x y z hyx (hl.1 z hz2)

theorem sort_sorted {α : Type} (lt : α → α → Bool)
    (hasymm : ∀ a b, lt a b = true → lt b a = false)
    (hneg : ∀ a b c, lt b a = false → lt c b = false → lt c a = false) :
    ∀ l : List α, (sort lt l).Pairwise (fun a b => lt b a = false)
  | [] => List.Pairwise.nil
  | x :: xs => sortInsert_sorted lt hasymm hneg x _ (sort_sorted lt hasymm hneg xs)

/-! ## The pass of `std::unique` -/

theorem uniqueFrom_sublist {α : Type} (p : α → α → Bool) :
    ∀ (l : List α) (r : α), (uniqueFrom p r l).Sublist l
  | [], _ => List.Sublist.slnil
  | x :: xs, r => by
    unfold uniqueFrom
    by_cases h : p r x = true
    · rw [if_pos h]; exact (uniqueFrom_sublist p xs r).cons x
    · rw [if_neg h]; exact (uniqueFrom_sublist p xs x).cons₂ x

theorem unique_sublist {α : Type} (p : α → α → Bool) : ∀ l : List α, (unique p l).Sublist l
  | [] => List.Sublist.slnil
  | x :: xs => (uniqueFrom_sublist p xs x).cons₂ x

theorem uniqueFrom_eq_self {α : Type} (p : α → α → Bool) :
    ∀ (l : List α) (r : α), (r :: l).Pairwise (fun a b => p a b = false) → uniqueFrom p r l = l
  | [], _, _ => rfl
  | x :: xs, r, h => by
    rw [List.pairwise_cons] at h
    have hrx : p r x = false := h.1 x (List.mem_cons_self _ _)
    unfold uniqueFrom
    simp only [hrx, Bool.false_eq_true, if_false]
    rw [uniqueFrom_eq_self p xs x h.2]

theorem unique_eq_self {α : Type} (p : α → α → Bool) :
    ∀ l : List α, l.Pairwise (fun a b => p a b = false) → unique p l = l
  | [], _ => rfl
  | x :: xs, h => by
    show x :: uniqueFrom p x xs = x :: xs
    rw [uniqueFrom_eq_self p xs x h]

/-! ## Keys of one class after `MakeUnique`

A collapsed class of keys is reduced to its first element of the sorted sequence. -/

theorem filter_uniqueFrom_class {P : Key → Bool} (hP : CollapsedClass P) :
    ∀ (l : List Key) (r : Key), (r :: l).Pairwise (fun a b => less_key b a = false) →
      (uniqueFrom equal_key r l).filter P =
        if P r = true then [] else ((l.filter P).head?).toList
  | [], r, _ => by by_cases h : P r = true <;> simp [uniqueFrom, h]
  | x :: xs, r, hs => by
    have hs2 := List.pairwise_cons.mp hs
    have hxs := List.pairwise_cons.mp hs2.2
    have hrx : less_key x r = false := hs2.1 x (List.mem_cons_self _ _)
    have hr_xs : (r :: xs).Pairwise (fun a b => less_key b a = false) :=
      List.pairwise_cons.mpr ⟨fun z hz => hs2.1 z (List.mem_cons_of_mem _ hz), hxs.2⟩
    have ihr := filter_uniqueFrom_class hP xs r hr_xs
    have ihx := filter_uniqueFrom_class hP xs x hs2.2
    unfold uniqueFrom
    by_cases hPr : P r = true
    · rw [if_pos hPr] at ihr ⊢
      by_cases he : equal_key r x = true
      · rw [if_pos he]; exact ihr
      · rw [if_neg he]
        have hPx : P x = false := by
          cases hpx : P x
          · rfl
          · exact absurd (hP.collapse r x hPr hpx) he
        have hnone : xs.filter P = [] := by
          rw [List.filter_eq_nil_iff]
          intro y hy
          rw [hP.convex r x y hrx (hxs.1 y hy) hPr hPx]
          decide
        have e : List.filter P (uniqueFrom equal_key x xs) = [] := by
          rw [ihx, hnone]; simp [hPx]
        rw [List.filter_cons, hPx]
        simpa using e
    · have hPr2 : P r = false := by simpa using hPr
      rw [if_neg hPr] at ihr ⊢
      by_cases he : equal_key r x = true
      · rw [if_pos he]
        have hPx : P x = false := by
          cases hpx : P x
          · rfl
          · rw [hP.keep r x hrx hPr2 hpx] at he; exact absurd he (by decide)
        rw [ihr, List.filter_cons, hPx]
        simp
      · rw [if_neg he]
        by_cases hPx : P x = true
        · rw [if_pos hPx] at ihx
          simp [List.filter_cons, hPx, ihx]
        · rw [if_neg hPx] at ihx
          have hPx2 : P x = false := by simpa using hPx
          simp [List.filter_cons, hPx2, ihx]

theorem filter_unique_class {P : Key → Bool} (hP : CollapsedClass P) :
    ∀ l : List Key, l.Pairwise (fun a b => less_key b a = false) →
      (unique equal_key l).filter P = ((l.filter P).head?).toList
  | [], _ => rfl
  | x :: xs, hs => by
    have h := filter_uniqueFrom_class hP xs x hs
    show (x :: uniqueFrom equal_key x xs).filter P = _
    by_cases hPx : P x = true
    · rw [if_pos hPx] at h
      simp [List.filter_cons, hPx, h]
    · rw [if_neg hPx] at h
      have hPx2 : P x = false := by simpa using hPx
      simp [List.filter_cons, hPx2, h]

theorem sort_less_key_sorted (keys : List Key) :
    (sort less_key keys).Pairwise (fun a b => less_key b a = false) :=
  sort_sorted less_key less_key_asymm less_key_negtrans keys

theorem MakeUnique_sublist_sort (keys : List Key) :
    (MakeUnique keys).Sublist (sort less_key keys) :=
  unique_sublist equal_key _

theorem mem_of_mem_MakeUnique {keys : List Key} {k : Key} (h : k ∈ MakeUnique keys) :
    k ∈ keys :=
  (mem_sort less_key keys k).mp ((MakeUnique_sublist_sort keys).subset h)

/-- The survivors of a collapsed class: at most one, present exactly when the class is
present in the input, and not preceded in the order by any input key of the class. -/
theorem MakeUnique_class_spec {P : Key → Bool} (hP : CollapsedClass P) (keys : List Key)
    (hprio : ∀ a ∈ keys, ∀ b ∈ keys, P a = true → P b = true → less_key b a = false →
      b.m_priority ≤ a.m_priority) :
    ((MakeUnique keys).filter P).length ≤ 1 ∧
    ((∃ k ∈ MakeUnique keys, P k = true) ↔ (∃ k ∈ keys, P k = true)) ∧
    (∀ s ∈ MakeUnique keys, P s = true →
      s ∈ keys ∧ ∀ k ∈ keys, P k = true → k.m_priority ≤ s.m_priority) := by
  have hsorted := sort_less_key_sorted keys
  have hfil : (MakeUnique keys).filter P = (((sort less_key keys).filter P).head?).toList :=
    filter_unique_class hP _ hsorted
  have hfs : ((sort less_key keys).filter P).Pairwise (fun a b => less_key b a = false) :=
    hsorted.sublist (List.filter_sublist _)
  refine ⟨?_, ?_, ?_⟩
  · rw [hfil]
    cases (List.filter P (sort less_key keys)).head? <;> simp
  · constructor
    · rintro ⟨k, hk, hPk⟩
      exact ⟨k, mem_of_mem_MakeUnique hk, hPk⟩
    · rintro ⟨k, hk, hPk⟩
      have hmem : k ∈ (sort less_key keys).filter P :=
        List.mem_filter.mpr ⟨(mem_sort less_key keys k).mpr hk, hPk⟩
      cases hl : (sort less_key keys).filter P with
      | nil => rw [hl] at hmem; exact absurd hmem (List.not_mem_nil _)
      | cons y ys =>
        have hy : y ∈ (MakeUnique keys).filter P := by rw [hfil, hl]; simp
        exact ⟨y, (List.mem_filter.mp hy).1, (List.mem_filter.mp hy).2⟩
  · intro s hs hPs
    refine ⟨mem_of_mem_MakeUnique hs, fun k hk hPk => ?_⟩
    have hsmem : s ∈ (MakeUnique keys).filter P := List.mem_filter.mpr ⟨hs, hPs⟩
    have hkmem : k ∈ (sort less_key keys).filter P :=
      List.mem_filter.mpr ⟨(mem_sort less_key keys k).mpr hk, hPk⟩
    rw [hfil] at hsmem
    cases hl : (sort less_key keys).filter P with
    | nil => rw [hl] at hkmem; exact absurd hkmem (List.not_mem_nil _)
    | cons y ys =>
      rw [hl] at hsmem hkmem hfs
      have hsy : s = y := by simpa using hsmem
      subst hsy
      rcases List.mem_cons.mp hkmem with rfl | hk2
      · exact le_refl _
      · exact hprio s (mem_of_mem_MakeUnique hs) k hk hPs hPk
          ((List.pairwise_cons.mp hfs).1 k hk2)

theorem keyEq_type {a b : Key} (h : keyEq a b = true) : a.m_type = b.m_type := by
  unfold keyEq at h
  simp only [Bool.and_eq_true, beq_iff_eq] at h
  exact h.1.2

theorem keyEq_symm {a b : Key} (h : keyEq a b = false) : keyEq b a = false := by
  cases hba : keyEq b a
  · rfl
  · unfold keyEq at h hba
    simp only [Bool.and_eq_true, beq_iff_eq] at hba
    rw [hba.1.1, hba.1.2, hba.2] at h
    simp at h

/-- The keys of one kind other than Line and Area form a collapsed class. -/
theorem collapsedClass_kind (K : Int) (hK1 : K ≠ line) (hK2 : K ≠ area) :
    CollapsedClass (fun k => decide (k.m_type = K)) := by
  constructor
  · intro a b ha hb
    simp only [decide_eq_true_eq] at ha hb
    unfold equal_key
    rw [if_neg (by rw [ha]; exact hK1), if_pos (by rw [ha, hb]),
      if_neg (by rw [ha]; exact fun h => hK2 h.1)]
  · intro a b _ ha hb
    simp only [decide_eq_true_eq, decide_eq_false_iff_not] at ha hb
    have hne : ¬ a.m_type = b.m_type := by rw [hb]; exact ha
    unfold equal_key
    by_cases hl : a.m_type = line
    · rw [if_pos hl]
      cases he : keyEq a b
      · rfl
      · exact absurd (keyEq_type he) hne
    · rw [if_neg hl, if_neg hne]
  · intro a b c hab hbc ha hb
    simp only [decide_eq_true_eq, decide_eq_false_iff_not] at ha hb ⊢
    intro hc
    have hne : ¬ b.m_type = a.m_type := by rw [ha]; exact hb
    have hne2 : ¬ c.m_type = b.m_type := by rw [hc]; exact fun e => hb e.symm
    unfold less_key at hab hbc
    rw [if_neg hne] at hab
    rw [if_neg hne2] at hbc
    simp only [decide_eq_false_iff_not] at hab hbc
    omega

/-- The Area keys with a given hatching flag form a collapsed class. -/
theorem collapsedClass_area (h : Bool) :
    CollapsedClass (fun k => decide (k.m_type = area ∧ k.m_hatching = h)) := by
  have hla : ¬ area = line := by decide
  constructor
  · intro a b ha hb
    simp only [decide_eq_true_eq] at ha hb
    unfold equal_key
    rw [if_neg (by rw [ha.1]; exact hla), if_pos (by rw [ha.1, hb.1])]
    rw [if_neg]
    rintro ⟨_, h1, h2⟩
    rw [ha.2] at h1
    rw [hb.2, h1] at h2
    exact absurd h2 (by decide)
  · intro a b hab ha hb
    simp only [decide_eq_true_eq, decide_eq_false_iff_not] at ha hb
    unfold equal_key
    by_cases hl : a.m_type = line
    · rw [if_pos hl]
      cases he : keyEq a b
      · rfl
      · have := keyEq_type he
        rw [hl, hb.1] at this
        exact absurd this.symm hla
    · rw [if_neg hl]
      by_cases ht : a.m_type = b.m_type
      · rw [if_pos ht]
        have hta : a.m_type = area := by rw [ht]; exact hb.1
        have hha : ¬ a.m_hatching = h := fun e => ha ⟨hta, e⟩
        unfold less_key at hab
        rw [if_pos ht.symm] at hab
        have hne : b.m_hatching ≠ a.m_hatching := by rw [hb.2]; exact fun e => hha e.symm
        rw [if_pos hne] at hab
        rw [if_pos]
        refine ⟨hta, ?_, hab⟩
        revert hne; rw [hab]; cases a.m_hatching <;> simp
      · rw [if_neg ht]
  · intro a b c hab hbc ha hb
    simp only [decide_eq_true_eq, decide_eq_false_iff_not] at ha hb ⊢
    rintro ⟨hc1, hc2⟩
    unfold less_key at hab hbc
    rcases a with ⟨sa, ta, ia, pa, fa⟩
    rcases b with ⟨sb, tb, ib, pb, fb⟩
    rcases c with ⟨sc, tc, ic, pc, fc⟩
    simp only at hab hbc ha hb hc1 hc2
    obtain ⟨rfl, rfl⟩ := ha
    subst hc1
    by_cases e : tb = area
    · subst e
      simp only [true_and] at hb
      subst hc2
      cases fb <;> cases fc <;> simp_all
    · have e2 : ¬ area = tb := fun x => e x.symm
      simp only [e, e2, if_false, decide_eq_false_iff_not] at hab hbc
      omega

/-! ## Line keys after `MakeUnique` -/

theorem equal_key_line_false {a b : Key} (ha : isLine a = true) (hb : isLine b = false) :
    equal_key a b = false := by
  unfold isLine at ha hb
  simp only [decide_eq_true_eq, decide_eq_false_iff_not] at ha hb
  unfold equal_key
  rw [if_pos ha]
  cases he : keyEq a b
  · rfl
  · exact absurd ((keyEq_type he).symm.trans ha) hb

theorem equal_key_false_line {a b : Key} (ha : isLine a = false) (hb : isLine b = true) :
    equal_key a b = false := by
  unfold isLine at ha hb
  simp only [decide_eq_true_eq, decide_eq_false_iff_not] at ha hb
  unfold equal_key
  rw [if_neg ha, if_neg (fun e => ha (e.trans hb))]

theorem isLine_of_equal_key {a b : Key} (he : equal_key a b = true) :
    isLine b = isLine a := by
  cases ha : isLine a <;> cases hb : isLine b
  · rfl
  · rw [equal_key_false_line ha hb] at he; exact absurd he (by decide)
  · rw [equal_key_line_false ha hb] at he; exact absurd he (by decide)
  · rfl

theorem not_isLine_after {a b c : Key} (hab : less_key b a = false) (hbc : less_key c b = false)
    (ha : isLine a = true) (hb : isLine b = false) : isLine c = false := by
  unfold isLine at *
  simp only [decide_eq_true_eq, decide_eq_false_iff_not] at ha hb ⊢
  intro hc
  have hne : ¬ b.m_type = a.m_type := by rw [ha]; exact hb
  have hne2 : ¬ c.m_type = b.m_type := by rw [hc]; exact fun e => hb e.symm
  unfold less_key at hab hbc
  rw [if_neg hne] at hab
  rw [if_neg hne2] at hbc
  simp only [decide_eq_false_iff_not] at hab hbc
  omega

theorem filter_uniqueFrom_line :
    ∀ (l : List Key) (r : Key), (r :: l).Pairwise (fun a b => less_key b a = false) →
      (uniqueFrom equal_key r l).filter isLine =
        if isLine r = true then uniqueFrom equal_key r (l.filter isLine)
        else unique equal_key (l.filter isLine)
  | [], r, _ => by by_cases h : isLine r = true <;> simp [uniqueFrom, unique, h]
  | x :: xs, r, hs => by
    have hs2 := List.pairwise_cons.mp hs
    have hxs := List.pairwise_cons.mp hs2.2
    have hrx : less_key x r = false := hs2.1 x (List.mem_cons_self _ _)
    have hr_xs : (r :: xs).Pairwise (fun a b => less_key b a = false) :=
      List.pairwise_cons.mpr ⟨fun z hz => hs2.1 z (List.mem_cons_of_mem _ hz), hxs.2⟩
    have ihr := filter_uniqueFrom_line xs r hr_xs
    have ihx := filter_uniqueFrom_line xs x hs2.2
    by_cases hLr : isLine r = true
    · rw [if_pos hLr] at ihr ⊢
      by_cases hLx : isLine x = true
      · rw [if_pos hLx] at ihx
        rw [List.filter_cons, if_pos hLx]
        unfold uniqueFrom
        by_cases he : equal_key r x = true
        · rw [if_pos he, if_pos he]; exact ihr
        · rw [if_neg he, if_neg he, List.filter_cons, if_pos hLx, ihx]
      · have hLx2 : isLine x = false := by simpa using hLx
        rw [if_neg hLx] at ihx
        have hnone : xs.filter isLine = [] := by
          rw [List.filter_eq_nil_iff]
          intro y hy
          rw [not_isLine_after hrx (hxs.1 y hy) hLr hLx2]
          decide
        rw [List.filter_cons, if_neg hLx, hnone]
        unfold uniqueFrom
        rw [equal_key_line_false hLr hLx2]
        simp only [Bool.false_eq_true, if_false]
        rw [List.filter_cons, if_neg hLx, ihx, hnone]
        rfl
    · have hLr2 : isLine r = false := by simpa using hLr
      rw [if_neg hLr] at ihr ⊢
      by_cases hLx : isLine x = true
      · rw [if_pos hLx] at ihx
        rw [List.filter_cons, if_pos hLx]
        unfold uniqueFrom
        rw [equal_key_false_line hLr2 hLx]
        simp only [Bool.false_eq_true, if_false]
        rw [List.filter_cons, if_pos hLx, ihx]
        rfl
      · have hLx2 : isLine x = false := by simpa using hLx
        rw [if_neg hLx] at ihx
        rw [List.filter_cons, if_neg hLx]
        unfold uniqueFrom
        by_cases he : equal_key r x = true
        · rw [if_pos he]; exact ihr
        · rw [if_neg he, List.filter_cons, if_neg hLx, ihx]

theorem filter_unique_line :
    ∀ l : List Key, l.Pairwise (fun a b => less_key b a = false) →
      (unique equal_key l).filter isLine = unique equal_key (l.filter isLine)
  | [], _ => rfl
  | x :: xs, hs => by
    have h := filter_uniqueFrom_line xs x hs
    show (x :: uniqueFrom equal_key x xs).filter isLine = _
    by_cases hLx : isLine x = true
    · rw [if_pos hLx] at h
      rw [List.filter_cons, if_pos hLx, List.filter_cons, if_pos hLx, h]
      rfl
    · rw [if_neg hLx] at h
      rw [List.filter_cons, if_neg hLx, List.filter_cons, if_neg hLx, h]

/-- The Line keys of the output are the Line keys of the sorted input, consecutive
equal keys merged. -/
theorem filter_MakeUnique_line (keys : List Key) :
    (MakeUnique keys).filter isLine = unique equal_key ((sort less_key keys).filter isLine) :=
  filter_unique_line _ (sort_less_key_sorted keys)

theorem equal_key_eq_keyEq_of_line {a b : Key} (ha : isLine a = true) :
    equal_key a b = keyEq a b := by
  unfold isLine at ha
  simp only [decide_eq_true_eq] at ha
  unfold equal_key
  rw [if_pos ha]

/-! ## Claims on `MakeUnique` -/

/-- C1: in a key sequence where only Area keys may carry the hatching flag, for every
kind `K` other than Line and Area the output of `MakeUnique` holds at most one key of
kind `K`, holds one exactly when the input holds a key of kind `K`, and the survivor is
an input key whose priority is the maximum among the input keys of kind `K`. -/
theorem MakeUnique_other_kind_survivor (keys : List Key) (K : Int)
    (hflag : ∀ k ∈ keys, k.m_type ≠ area → k.m_hatching = false)
    (hK1 : K ≠ line) (hK2 : K ≠ area) :
    ((MakeUnique keys).filter (fun k => decide (k.m_type = K))).length ≤ 1 ∧
    ((∃ k ∈ MakeUnique keys, k.m_type = K) ↔ (∃ k ∈ keys, k.m_type = K)) ∧
    (∀ s ∈ MakeUnique keys, s.m_type = K →
      s ∈ keys ∧ ∀ k ∈ keys, k.m_type = K → k.m_priority ≤ s.m_priority) := by
  have hprio : ∀ a ∈ keys, ∀ b ∈ keys, (fun k : Key => decide (k.m_type = K)) a = true →
      (fun k : Key => decide (k.m_type = K)) b = true → less_key b a = false →
      b.m_priority ≤ a.m_priority := by
    intro a ha b hb hPa hPb hlt
    simp only [decide_eq_true_eq] at hPa hPb
    have hfa := hflag a ha (by rw [hPa]; exact hK2)
    have hfb := hflag b hb (by rw [hPb]; exact hK2)
    unfold less_key at hlt
    rw [if_pos (by rw [hPa, hPb]), if_neg (by rw [hfa, hfb]; simp)] at hlt
    simp only [decide_eq_false_iff_not] at hlt
    omega
  have h := MakeUnique_class_spec (collapsedClass_kind K hK1 hK2) keys hprio
  simpa only [decide_eq_true_eq] using h

/-- C1, at a concrete input: two Symbol keys of priorities 1 and 5 among other keys. -/
theorem MakeUnique_other_kind_survivor_witness :
    ((MakeUnique [⟨1, symbol, 1, 1, false⟩, ⟨1, line, 2, 7, false⟩, ⟨1, symbol, 3, 5, false⟩,
        ⟨1, area, 4, 9, true⟩]).filter (fun k => decide (k.m_type = symbol))).length ≤ 1 ∧
    ((∃ k ∈ MakeUnique [⟨1, symbol, 1, 1, false⟩, ⟨1, line, 2, 7, false⟩,
        ⟨1, symbol, 3, 5, false⟩, ⟨1, area, 4, 9, true⟩], k.m_type = symbol) ↔
      (∃ k ∈ [(⟨1, symbol, 1, 1, false⟩ : Key), ⟨1, line, 2, 7, false⟩,
        ⟨1, symbol, 3, 5, false⟩, ⟨1, area, 4, 9, true⟩], k.m_type = symbol)) ∧
    (∀ s ∈ MakeUnique [⟨1, symbol, 1, 1, false⟩, ⟨1, line, 2, 7, false⟩,
        ⟨1, symbol, 3, 5, false⟩, ⟨1, area, 4, 9, true⟩], s.m_type = symbol →
      s ∈ [(⟨1, symbol, 1, 1, false⟩ : Key), ⟨1, line, 2, 7, false⟩,
        ⟨1, symbol, 3, 5, false⟩, ⟨1, area, 4, 9, true⟩] ∧
      ∀ k ∈ [(⟨1, symbol, 1, 1, false⟩ : Key), ⟨1, line, 2, 7, false⟩,
        ⟨1, symbol, 3, 5, false⟩, ⟨1, area, 4, 9, true⟩],
        k.m_type = symbol → k.m_priority ≤ s.m_priority) :=
  MakeUnique_other_kind_survivor
    [⟨1, symbol, 1, 1, false⟩, ⟨1, line, 2, 7, false⟩, ⟨1, symbol, 3, 5, false⟩,
      ⟨1, area, 4, 9, true⟩] symbol (by decide) (by decide) (by decide)

/-- C2: for each value of the hatching flag, the output of `MakeUnique` holds at most
one Area key with that flag, holds one exactly when the input holds one (so a hatching
and a non-hatching Area key both survive when both exist), and the survivor is an input
key whose priority is the maximum among the input Area keys with the same flag. -/
theorem MakeUnique_area_survivors (keys : List Key) (h : Bool) :
    ((MakeUnique keys).filter
      (fun k => decide (k.m_type = area ∧ k.m_hatching = h))).length ≤ 1 ∧
    ((∃ k ∈ MakeUnique keys, k.m_type = area ∧ k.m_hatching = h) ↔
      (∃ k ∈ keys, k.m_type = area ∧ k.m_hatching = h)) ∧
    (∀ s ∈ MakeUnique keys, s.m_type = area ∧ s.m_hatching = h →
      s ∈ keys ∧ ∀ k ∈ keys, k.m_type = area ∧ k.m_hatching = h →
        k.m_priority ≤ s.m_priority) := by
  have hprio : ∀ a ∈ keys, ∀ b ∈ keys,
      (fun k : Key => decide (k.m_type = area ∧ k.m_hatching = h)) a = true →
      (fun k : Key => decide (k.m_type = area ∧ k.m_hatching = h)) b = true →
      less_key b a = false → b.m_priority ≤ a.m_priority := by
    intro a _ b _ hPa hPb hlt
    simp only [decide_eq_true_eq] at hPa hPb
    unfold less_key at hlt
    rw [if_pos (by rw [hPa.1, hPb.1]), if_neg (by rw [hPa.2, hPb.2]; simp)] at hlt
    simp only [decide_eq_false_iff_not] at hlt
    omega
  have hspec := MakeUnique_class_spec (collapsedClass_area h) keys hprio
  simpa only [decide_eq_true_eq] using hspec

/-- C3, counterexample: a sequence holding the same Line key twice loses one copy, so
the number of Line keys is not preserved. -/
theorem MakeUnique_line_count_counterexample :
    ¬ (((MakeUnique [⟨1, line, 1, 1, false⟩, ⟨1, line, 1, 1, false⟩]).filter isLine).length =
      ([(⟨1, line, 1, 1, false⟩ : Key), ⟨1, line, 1, 1, false⟩].filter isLine).length) := by
  decide

/-- The stable insertion sort of the model is an admissible result of `std::sort`. -/
theorem sort_isSortOf (keys : List Key) : IsSortOf less_key (sort less_key keys) keys :=
  ⟨sort_perm less_key keys, sort_less_key_sorted keys⟩

theorem MakeUnique_eq_MakeUniqueOf (keys : List Key) :
    MakeUnique keys = MakeUniqueOf (sort less_key keys) :=
  rfl

theorem uniqueFrom_chain {α : Type} (p : α → α → Bool) (Q : α → Prop) (R : α → α → Prop)
    (hR : ∀ a b, Q a → p a b = false → R a b) :
    ∀ (l : List α) (r : α), Q r → (∀ x ∈ l, Q x) → List.Chain R r (uniqueFrom p r l)
  | [], _, _, _ => List.Chain.nil
  | x :: xs, r, hr, hl => by
    have hx : Q x := hl x (List.mem_cons_self _ _)
    have hxs : ∀ y ∈ xs, Q y := fun y hy => hl y (List.mem_cons_of_mem _ hy)
    unfold uniqueFrom
    by_cases h : p r x = true
    · rw [if_pos h]
      exact uniqueFrom_chain p Q R hR xs r hr hxs
    · rw [if_neg h]
      exact List.Chain.cons (hR r x hr (by simpa using h))
        (uniqueFrom_chain p Q R hR xs x hx hxs)

theorem unique_chain {α : Type} (p : α → α → Bool) (Q : α → Prop) (R : α → α → Prop)
    (hR : ∀ a b, Q a → p a b = false → R a b) :
    ∀ l : List α, (∀ x ∈ l, Q x) → List.Chain' R (unique p l)
  | [], _ => List.chain'_nil
  | x :: xs, hl =>
    uniqueFrom_chain p Q R hR xs x (hl x (List.mem_cons_self _ _))
      (fun y hy => hl y (List.mem_cons_of_mem _ hy))

/-- C3, amended: whatever admissible order `std::sort` leaves, `MakeUnique` never increases
the number of Line keys, and when no two Line keys of the input are equal under
`Key::operator==` it keeps every Line key (the Line keys of the output are a permutation of
the Line keys of the input); for a Line key `equal_key` is `operator==`, and the output
never holds two consecutive Line keys that are equal under it: equal Line keys that are
adjacent after the sort are merged. -/
theorem MakeUnique_line_count (keys sorted : List Key) (hs : IsSortOf less_key sorted keys) :
    ((MakeUniqueOf sorted).filter isLine).length ≤ (keys.filter isLine).length ∧
    ((keys.filter isLine).Pairwise (fun a b => keyEq a b = false) →
      ((MakeUniqueOf sorted).filter isLine).Perm (keys.filter isLine)) ∧
    (∀ a b : Key, a.m_type = line → equal_key a b = keyEq a b) ∧
    ((MakeUniqueOf sorted).filter isLine).Chain' (fun a b => keyEq a b = false) := by
  have hperm : (sorted.filter isLine).Perm (keys.filter isLine) := hs.1.filter _
  have hfil : (MakeUniqueOf sorted).filter isLine = unique equal_key (sorted.filter isLine) :=
    filter_unique_line sorted hs.2
  refine ⟨?_, fun hpw => ?_, fun a b ha => ?_, ?_⟩
  · rw [hfil, ← hperm.length_eq]
    exact (unique_sublist _ _).length_le
  · have hpw2 : (sorted.filter isLine).Pairwise (fun a b => keyEq a b = false) :=
      hperm.symm.pairwise hpw (fun h => keyEq_symm h)
    have hpw3 : (sorted.filter isLine).Pairwise (fun a b => equal_key a b = false) := by
      refine hpw2.imp_of_mem ?_
      intro a b ha _ hab
      rw [equal_key_eq_keyEq_of_line (List.mem_filter.mp ha).2]
      exact hab
    rw [hfil, unique_eq_self _ _ hpw3]
    exact hperm
  · unfold equal_key
    rw [if_pos ha]
  · rw [hfil]
    refine unique_chain equal_key (fun k => isLine k = true) _ ?_ _ ?_
    · intro a b ha hab
      rw [equal_key_eq_keyEq_of_line ha] at hab
      exact hab
    · intro x hx
      exact (List.mem_filter.mp hx).2

/-- C3, amended, at concrete inputs: four Line keys of the same priority, the first and the
last equal, left by the sort with the two equal keys adjacent (one copy is merged); and
three pairwise different Line keys, all kept. -/
theorem MakeUnique_line_count_witness :
    (IsSortOf less_key
      [⟨1, line, 1, 1, false⟩, ⟨1, line, 1, 1, false⟩, ⟨1, line, 2, 1, false⟩,
        ⟨1, line, 3, 1, false⟩, ⟨1, area, 1, 4, false⟩]
      [⟨1, line, 1, 1, false⟩, ⟨1, line, 2, 1, false⟩, ⟨1, area, 1, 4, false⟩,
        ⟨1, line, 3, 1, false⟩, ⟨1, line, 1, 1, false⟩] ∧
      ((MakeUniqueOf
        [⟨1, line, 1, 1, false⟩, ⟨1, line, 1, 1, false⟩, ⟨1, line, 2, 1, false⟩,
          ⟨1, line, 3, 1, false⟩, ⟨1, area, 1, 4, false⟩]).filter isLine).Chain'
        (fun a b => keyEq a b = false)) ∧
    (([(⟨1, line, 1, 1, false⟩ : Key), ⟨1, line, 2, 1, false⟩, ⟨1, area, 1, 4, false⟩,
        ⟨1, line, 3, 2, false⟩].filter isLine).Pairwise (fun a b => keyEq a b = false) ∧
      ((MakeUniqueOf
        [⟨1, line, 3, 2, false⟩, ⟨1, line, 2, 1, false⟩, ⟨1, line, 1, 1, false⟩,
          ⟨1, area, 1, 4, false⟩]).filter isLine).Perm
        ([(⟨1, line, 1, 1, false⟩ : Key), ⟨1, line, 2, 1, false⟩, ⟨1, area, 1, 4, false⟩,
          ⟨1, line, 3, 2, false⟩].filter isLine)) :=
  ⟨⟨⟨by decide, by decide⟩,
      (MakeUnique_line_count
        [⟨1, line, 1, 1, false⟩, ⟨1, line, 2, 1, false⟩, ⟨1, area, 1, 4, false⟩,
          ⟨1, line, 3, 1, false⟩, ⟨1, line, 1, 1, false⟩]
        [⟨1, line, 1, 1, false⟩, ⟨1, line, 1, 1, false⟩, ⟨1, line, 2, 1, false⟩,
          ⟨1, line, 3, 1, false⟩, ⟨1, area, 1, 4, false⟩]
        ⟨by decide, by decide⟩).2.2.2⟩,
    ⟨by decide,
      (MakeUnique_line_count
        [⟨1, line, 1, 1, false⟩, ⟨1, line, 2, 1, false⟩, ⟨1, area, 1, 4, false⟩,
          ⟨1, line, 3, 2, false⟩]
        [⟨1, line, 3, 2, false⟩, ⟨1, line, 2, 1, false⟩, ⟨1, line, 1, 1, false⟩,
          ⟨1, area, 1, 4, false⟩]
        ⟨by decide, by decide⟩).2.1 (by decide)⟩⟩

/-- C4, counterexample: two Line keys given in increasing priority come out in
decreasing priority, so the Line keys of the output are not in their input order. -/
theorem MakeUnique_line_order_counterexample :
    ¬ ((MakeUnique [⟨1, line, 1, 1, false⟩, ⟨1, line, 2, 2, false⟩]).filter isLine).Sublist
      ([(⟨1, line, 1, 1, false⟩ : Key), ⟨1, line, 2, 2, false⟩].filter isLine) := by
  decide

/-- C4, amended: whatever admissible order `std::sort` leaves, the Line keys of the output
of `MakeUnique` are ordered by `less_key`, whatever their order in the input: a Line key
with the hatching flag never follows one without it, and among Line keys with the same flag
the priorities are non-increasing; every Line key of the output is a Line key of the
input. -/
theorem MakeUnique_line_order (keys sorted : List Key) (hs : IsSortOf less_key sorted keys) :
    ((MakeUniqueOf sorted).filter isLine).Pairwise (fun a b => less_key b a = false) ∧
    ((MakeUniqueOf sorted).filter isLine).Pairwise (fun a b =>
      (b.m_hatching = true → a.m_hatching = true) ∧
      (a.m_hatching = b.m_hatching → b.m_priority ≤ a.m_priority)) ∧
    (∀ k ∈ (MakeUniqueOf sorted).filter isLine, k ∈ keys.filter isLine) := by
  have hsub : (MakeUniqueOf sorted).Sublist sorted := unique_sublist equal_key _
  have hpw : ((MakeUniqueOf sorted).filter isLine).Pairwise (fun a b => less_key b a = false) :=
    (hs.2.sublist hsub).sublist (List.filter_sublist _)
  refine ⟨hpw, ?_, fun k hk => ?_⟩
  · refine hpw.imp_of_mem ?_
    intro a b ha hb hle
    have hta : a.m_type = line := by
      have := (List.mem_filter.mp ha).2
      unfold isLine at this
      simpa using this
    have htb : b.m_type = line := by
      have := (List.mem_filter.mp hb).2
      unfold isLine at this
      simpa using this
    unfold less_key at hle
    rw [if_pos (by rw [hta, htb])] at hle
    constructor
    · intro hbh
      by_contra hah
      have hne : b.m_hatching ≠ a.m_hatching := by
        rw [hbh]; exact fun e => hah e.symm
      rw [if_pos hne, hbh] at hle
      exact absurd hle (by decide)
    · intro heq
      rw [if_neg (by rw [heq]; simp)] at hle
      simp only [decide_eq_false_iff_not] at hle
      omega
  · have h1 := List.mem_filter.mp hk
    exact List.mem_filter.mpr ⟨hs.1.mem_iff.mp (hsub.subset h1.1), h1.2⟩

/-- C4, amended, at a concrete input: three Line keys given in increasing priority, left by
the sort in decreasing priority. -/
theorem MakeUnique_line_order_witness :
    IsSortOf less_key
      [⟨1, line, 3, 3, false⟩, ⟨1, line, 2, 2, false⟩, ⟨1, line, 1, 1, false⟩]
      [⟨1, line, 1, 1, false⟩, ⟨1, line, 2, 2, false⟩, ⟨1, line, 3, 3, false⟩] ∧
    ((MakeUniqueOf
      [⟨1, line, 3, 3, false⟩, ⟨1, line, 2, 2, false⟩, ⟨1, line, 1, 1, false⟩]).filter
      isLine).Pairwise (fun a b => less_key b a = false) :=
  ⟨⟨by decide, by decide⟩,
    (MakeUnique_line_order
      [⟨1, line, 1, 1, false⟩, ⟨1, line, 2, 2, false⟩, ⟨1, line, 3, 3, false⟩]
      [⟨1, line, 3, 3, false⟩, ⟨1, line, 2, 2, false⟩, ⟨1, line, 1, 1, false⟩]
      ⟨by decide, by decide⟩).1⟩

end drule

namespace df

open drule feature

/-! ## `std::string::find` -/

theorem findFrom_ne_none_iff (pat : CppString) :
    ∀ (s : CppString) (i : Nat), findFrom pat s i ≠ none ↔ pat <:+: s
  | [], i => by
    unfold findFrom
    cases pat with
    | nil => simp
    | cons a as => simp
  | c :: cs, i => by
    unfold findFrom
    by_cases h : pat.isPrefixOf (c :: cs) = true
    · rw [if_pos h]
      have hin : pat <:+: c :: cs := (List.isPrefixOf_iff_prefix.mp h).isInfix
      simp [hin]
    · rw [if_neg h, findFrom_ne_none_iff pat cs (i + 1), List.infix_cons_iff]
      have hnp : ¬ pat <+: c :: cs := fun hp => h (List.isPrefixOf_iff_prefix.mpr hp)
      simp [hnp]

/-- The call `s.find(pat) != npos` holds exactly when `pat` occurs in `s`. -/
theorem find_ne_none_iff (s pat : CppString) : find s pat ≠ none ↔ pat <:+: s :=
  findFrom_ne_none_iff pat s 0

/-! ## Claims on `CaptionDescription::Init` -/

theorem truncateMainText_length (m : CppString) : (truncateMainText m).length ≤ 203 := by
  unfold truncateMainText kMaxTextSize
  by_cases h : m.length > 200
  · rw [if_pos h]
    simp only [List.length_append, List.length_take, List.length_cons, List.length_nil]
    omega
  · rw [if_neg h]; omega

/-- C5, counterexample: a primary name of 201 bytes at zoom 10 gives a main text of
203 bytes, which is more than 200. -/
theorem Init_mainText_length_counterexample :
    ¬ ((({} : CaptionDescription).Init sample.scales
        (sample.mkFeature [5] GeomType.Point (List.replicate 201 'a') [] []) 0 10
        GeomType.Point false).m_mainText.length ≤ 200) := by
  set_option maxRecDepth 100000 in decide

/-- C5, amended: for every descriptor, feature, device language, zoom, geometry kind and
aux-slot flag, after `Init` the main text is at most 203 bytes long (200 bytes of the
name and the 3 bytes of the ellipsis). -/
theorem Init_mainText_length (sc : Scales) (self : CaptionDescription) (f : FeatureType)
    (deviceLang zoomLevel : Int) (geomType : GeomType) (auxCaptionExists : Bool) :
    (self.Init sc f deviceLang zoomLevel geomType auxCaptionExists).m_mainText.length ≤ 203 := by
  have ht := truncateMainText_length
    (self.fetchNames sc f deviceLang zoomLevel geomType auxCaptionExists).1
  unfold CaptionDescription.Init
  simp only
  split_ifs <;> simp only [List.length_nil] <;> omega

/-- C6, counterexample: at zoom 17 on a Point feature with an aux caption slot, the house
number "12" is a non-empty literal substring of the non-empty main text "Main St 12",
and yet the main text is kept. -/
theorem Init_house_number_step_counterexample :
    GeomType.Point ≠ GeomType.Line ∧ (17 : Int) ≥ 16 ∧
    (sample.mkFeature [5] GeomType.Point "Main St 12".toList [] "12".toList).GetHouseNumber ≠ [] ∧
    truncateMainText "Main St 12".toList ≠ [] ∧
    (sample.mkFeature [5] GeomType.Point "Main St 12".toList [] "12".toList).GetHouseNumber
      <:+: truncateMainText "Main St 12".toList ∧
    (({} : CaptionDescription).Init sample.scales
      (sample.mkFeature [5] GeomType.Point "Main St 12".toList [] "12".toList) 0 17
      GeomType.Point true).m_mainText ≠ [] := by
  refine ⟨by decide, by decide, by decide, by decide, ?_, by decide⟩
  exact ⟨"Main St ".toList, [], by decide⟩

/-- C6, amended: in every call of `Init` that reaches the house-number step (geometry
not Line, zoom >= 16, and an aux caption slot exists or the main text is empty), the
house-number text becomes the feature's house number; the main text is cleared when the
house number is non-empty and the non-empty main text is a literal substring of the
house number, and it is kept in every other case. -/
theorem Init_house_number_step (sc : Scales) (self : CaptionDescription) (f : FeatureType)
    (deviceLang zoomLevel : Int) (geomType : GeomType) (auxCaptionExists : Bool)
    (hgeom : geomType ≠ GeomType.Line) (hzoom : zoomLevel ≥ 16)
    (hslot : auxCaptionExists = true ∨ truncateMainText
      (self.fetchNames sc f deviceLang zoomLevel geomType auxCaptionExists).1 = []) :
    (self.Init sc f deviceLang zoomLevel geomType auxCaptionExists).m_houseNumberText =
      f.GetHouseNumber ∧
    ((f.GetHouseNumber ≠ [] ∧
        truncateMainText
          (self.fetchNames sc f deviceLang zoomLevel geomType auxCaptionExists).1 ≠ [] ∧
        truncateMainText (self.fetchNames sc f deviceLang zoomLevel geomType auxCaptionExists).1
          <:+: f.GetHouseNumber) →
      (self.Init sc f deviceLang zoomLevel geomType auxCaptionExists).m_mainText = []) ∧
    (¬ (f.GetHouseNumber ≠ [] ∧
        truncateMainText
          (self.fetchNames sc f deviceLang zoomLevel geomType auxCaptionExists).1 ≠ [] ∧
        truncateMainText (self.fetchNames sc f deviceLang zoomLevel geomType auxCaptionExists).1
          <:+: f.GetHouseNumber) →
      (self.Init sc f deviceLang zoomLevel geomType auxCaptionExists).m_mainText =
        truncateMainText
          (self.fetchNames sc f deviceLang zoomLevel geomType auxCaptionExists).1) := by
  have hguard : ¬ (zoomLevel ≤ kLongCaptionsMaxZoom ∧
      (self.fetchNames sc f deviceLang zoomLevel geomType auxCaptionExists).1.length >
        kLowWorldMaxTextSize) := by
    unfold kLongCaptionsMaxZoom
    intro h
    omega
  have hreach : geomType ≠ GeomType.Line ∧ zoomLevel ≥ kHousenumbersMinZoom ∧
      (auxCaptionExists = true ∨ (truncateMainText
        (self.fetchNames sc f deviceLang zoomLevel geomType auxCaptionExists).1).isEmpty = true) := by
    refine ⟨hgeom, hzoom, ?_⟩
    rcases hslot with h | h
    · exact Or.inl h
    · exact Or.inr (by rw [h]; rfl)
  unfold CaptionDescription.Init
  simp only [if_neg hguard, if_pos hreach]
  have hcond : (f.GetHouseNumber.isEmpty = false ∧
      (truncateMainText
        (self.fetchNames sc f deviceLang zoomLevel geomType auxCaptionExists).1).isEmpty = false ∧
      find f.GetHouseNumber (truncateMainText
        (self.fetchNames sc f deviceLang zoomLevel geomType auxCaptionExists).1) ≠ none) ↔
      (f.GetHouseNumber ≠ [] ∧
        truncateMainText
          (self.fetchNames sc f deviceLang zoomLevel geomType auxCaptionExists).1 ≠ [] ∧
        truncateMainText (self.fetchNames sc f deviceLang zoomLevel geomType auxCaptionExists).1
          <:+: f.GetHouseNumber) := by
    rw [find_ne_none_iff]
    simp only [List.isEmpty_eq_false, ne_eq, List.isEmpty_iff] 
  by_cases hc : (f.GetHouseNumber.isEmpty = false ∧
      (truncateMainText
        (self.fetchNames sc f deviceLang zoomLevel geomType auxCaptionExists).1).isEmpty = false ∧
      find f.GetHouseNumber (truncateMainText
        (self.fetchNames sc f deviceLang zoomLevel geomType auxCaptionExists).1) ≠ none)
  · rw [if_pos hc]
    exact ⟨rfl, fun _ => rfl, fun hn => absurd (hcond.mp hc) hn⟩
  · rw [if_neg hc]
    exact ⟨rfl, fun hp => absurd (hcond.mpr hp) hc, fun _ => rfl⟩

/-- C6, amended, at a concrete input: main text "12" and house number "12A" at zoom 17
on a Point feature with an aux caption slot. -/
theorem Init_house_number_step_witness :
    (({} : CaptionDescription).Init sample.scales
      (sample.mkFeature [5] GeomType.Point "12".toList [] "12A".toList) 0 17
      GeomType.Point true).m_houseNumberText = "12A".toList ∧
    (({} : CaptionDescription).Init sample.scales
      (sample.mkFeature [5] GeomType.Point "12".toList [] "12A".toList) 0 17
      GeomType.Point true).m_mainText = [] :=
  have h := Init_house_number_step sample.scales {}
    (sample.mkFeature [5] GeomType.Point "12".toList [] "12A".toList) 0 17
    GeomType.Point true (by decide) (by decide) (Or.inl rfl)
  ⟨h.1, h.2.1 ⟨by decide, by decide, ⟨[], "A".toList, by decide⟩⟩⟩

/-- C7, failing input: the lookups return primary "12" and secondary "Foo" (secondary
non-empty, primary non-empty), the house number is "12", zoom 17, Point geometry, aux
caption slot present. `Init` clears the main text in the house-number step and leaves
the aux text, so the descriptor ends with aux text and no main text. -/
theorem Init_aux_without_main :
    ((sample.mkFeature [5] GeomType.Point "12".toList "Foo".toList "12".toList).GetPreferredNames 0
        ).secondary ≠ [] ∧
    ((sample.mkFeature [5] GeomType.Point "12".toList "Foo".toList "12".toList).GetPreferredNames 0
        ).GetPrimary ≠ [] ∧
    (({} : CaptionDescription).Init sample.scales
      (sample.mkFeature [5] GeomType.Point "12".toList "Foo".toList "12".toList) 0 17
      GeomType.Point true) =
      { m_mainText := [], m_auxText := "Foo".toList, m_houseNumberText := "12".toList } := by
  decide

/-- C8: for every call of `Init` on a fresh descriptor with zoom <= 4 in which the
primary name fetched is longer than 50 bytes, the resulting main text and aux text are
empty and the house-number text stays empty (no house number is fetched). -/
theorem Init_low_zoom_guard (sc : Scales) (f : FeatureType) (deviceLang zoomLevel : Int)
    (geomType : GeomType) (auxCaptionExists : Bool) (hzoom : zoomLevel ≤ 4)
    (hlen : (({} : CaptionDescription).fetchNames sc f deviceLang zoomLevel geomType
      auxCaptionExists).1.length > 50) :
    (({} : CaptionDescription).Init sc f deviceLang zoomLevel geomType auxCaptionExists) =
      { m_mainText := [], m_auxText := [], m_houseNumberText := [] } := by
  have hguard : zoomLevel ≤ kLongCaptionsMaxZoom ∧
      (({} : CaptionDescription).fetchNames sc f deviceLang zoomLevel geomType
        auxCaptionExists).1.length > kLowWorldMaxTextSize := ⟨hzoom, hlen⟩
  unfold CaptionDescription.Init
  simp only [if_pos hguard]

/-- C8, at a concrete input: a name of 51 bytes at zoom 3, with a house number set on
the feature. -/
theorem Init_low_zoom_guard_witness :
    (3 : Int) ≤ 4 ∧
    (({} : CaptionDescription).Init sample.scales
      (sample.mkFeature [5] GeomType.Point (List.replicate 51 'a') "b".toList "7".toList) 0 3
      GeomType.Point true) =
      { m_mainText := [], m_auxText := [], m_houseNumberText := [] } :=
  ⟨by decide, Init_low_zoom_guard sample.scales
    (sample.mkFeature [5] GeomType.Point (List.replicate 51 'a') "b".toList "7".toList) 0 3
    GeomType.Point true (by decide) (by decide)⟩

/-! ## Claims on `Stylist::Stylist` -/

theorem IsMatched_national_park (env : Env) (t : Nat)
    (ht : t = env.cl.GetTypeByPath ["boundary", "national_park"])
    (hprep : env.PrepareToMatch t 2 = t) :
    (IsHatchingTerritoryChecker.create env.cl.GetTypeByPath).IsMatched env.PrepareToMatch t
      = true := by
  unfold IsHatchingTerritoryChecker.IsMatched IsHatchingTerritoryChecker.create
  simp only [List.map_cons, List.map_nil, List.length_cons, List.length_nil]
  split_ifs with h
  · rfl
  · rw [hprep]
    simp [ht]

/-- C9, counterexample: a feature whose only type is boundary-national_park (code 10 of
the sample classifier), Area geometry, one suitable Area rule that the runtime selector
keeps: the decision has a hatching rule and a null area rule. -/
theorem Stylist_national_park_counterexample :
    (sample.mkFeature [10] GeomType.Area [] [] []).types =
      [sample.env.cl.GetTypeByPath ["boundary", "national_park"]] ∧
    (sample.env.cl.GetSuitable 10 15 GeomType.Area).map (fun k => k.m_type) = [area] ∧
    ¬ ((Stylist.ctor sample.env (sample.mkFeature [10] GeomType.Area [] [] []) 15 0).m_areaRule
        ≠ none ∧
      (Stylist.ctor sample.env (sample.mkFeature [10] GeomType.Area [] [] []) 15 0).m_hatchingRule
        ≠ none) := by
  decide

/-- C9, amended: for a feature whose only type is boundary-national_park, with Area
geometry and exactly one suitable rule at the zoom, of kind Area, which the runtime
selector keeps, the decision built by `Stylist` has a non-null hatching rule (the rule of
that key, tagged as hatching) and a null area rule. -/
theorem Stylist_national_park (env : Env) (f : FeatureType) (zoomLevel : Nat) (deviceLang : Int)
    (t : Nat) (k : Key) (htypes : f.types = [t])
    (ht : t = env.cl.GetTypeByPath ["boundary", "national_park"])
    (hprep : env.PrepareToMatch t 2 = t)
    (hgeom : f.GetGeomType = GeomType.Area)
    (hsuit : env.cl.GetSuitable t zoomLevel GeomType.Area = [k])
    (hk : k.m_type = area)
    (hfilter : env.FilterRulesByRuntimeSelector f zoomLevel [{ k with m_hatching := true }] =
      [{ k with m_hatching := true }]) :
    (Stylist.ctor env f zoomLevel deviceLang).m_hatchingRule =
      some (env.Find { k with m_hatching := true }) ∧
    (Stylist.ctor env f zoomLevel deviceLang).m_areaRule = none := by
  have hmatch := IsMatched_national_park env t ht hprep
  have hkeys : Stylist.collectKeys env f zoomLevel = [{ k with m_hatching := true }] := by
    unfold Stylist.collectKeys
    rw [htypes, hgeom]
    simp only [keysLoop, mainOverlayType, List.length_singleton, if_true, List.headD_cons,
      hsuit, hmatch, typeKeysLoop, true_or, hk, and_self, List.append_nil]
    simpa only [hk] using hfilter
  have h1 : ¬ area = symbol := by decide
  have h2 : ¬ (area = pathtext ∨ area = caption) := by decide
  have h3 : ¬ area = shield := by decide
  have h4 : ¬ area = line := by decide
  unfold Stylist.ctor
  simp only [hkeys, List.isEmpty_cons, Bool.false_eq_true, if_false, MakeUnique, sort,
    sortInsert, unique, uniqueFrom, List.foldl_cons, List.foldl_nil, Stylist.ProcessKey, hk,
    h1, h2, h3, h4, if_true, captionStep, ne_eq, not_true_eq_false, or_self, and_self]

/-- C9, amended, at the sample input. -/
theorem Stylist_national_park_witness :
    (Stylist.ctor sample.env (sample.mkFeature [10] GeomType.Area [] [] []) 15 0).m_hatchingRule =
      some (sample.env.Find ⟨15, area, 0, 100, true⟩) ∧
    (Stylist.ctor sample.env (sample.mkFeature [10] GeomType.Area [] [] []) 15 0).m_areaRule
      = none :=
  Stylist_national_park sample.env (sample.mkFeature [10] GeomType.Area [] [] []) 15 0 10
    ⟨15, area, 0, 100, false⟩
    (by decide) (by decide) (by decide) (by decide) (by decide) (by decide) (by decide)

/-- C10, counterexample: a feature whose only type is the coast type and which has no
suitable rule at the zoom gets a decision whose coastline flag is false, although its type
set contains the coast type. -/
theorem Stylist_isCoastline_counterexample :
    Stylist.collectKeys sample.env (sample.mkFeature [1] GeomType.Line [] [] []) 15 = [] ∧
    ¬ ((Stylist.ctor sample.env (sample.mkFeature [1] GeomType.Line [] [] []) 15 0).m_isCoastline
        = true ↔
      sample.env.cl.GetCoastType ∈ (sample.mkFeature [1] GeomType.Line [] [] []).types) := by
  decide

/-- C10, amended: for every feature, zoom and language, the coastline flag of the decision
built by `Stylist` is true exactly when the key set left by the runtime selector filter
is not empty and the feature's type set contains the classifier's coast type; with an
empty key set the flag keeps its default, false. -/
theorem Stylist_isCoastline (env : Env) (f : FeatureType) (zoomLevel : Nat) (deviceLang : Int) :
    (Stylist.ctor env f zoomLevel deviceLang).m_isCoastline = true ↔
      (Stylist.collectKeys env f zoomLevel ≠ [] ∧ env.cl.GetCoastType ∈ f.types) := by
  unfold Stylist.ctor
  cases hkeys : Stylist.collectKeys env f zoomLevel with
  | nil => simp
  | cons k ks => simp

end df

namespace df

open drule feature

/-! ## Claims on the constructor: empty key set, main overlay type -/

/-- C11: for every feature and zoom for which the key set is empty after the runtime
selector filter, the decision built by `Stylist` is all-empty: the symbol, caption,
pathtext, shield, house-number, area and hatching rules are null, there is no line rule,
and the main, aux and house-number texts of the caption descriptor are empty. -/
theorem Stylist_empty_keys (env : Env) (f : FeatureType) (zoomLevel : Nat) (deviceLang : Int)
    (hkeys : Stylist.collectKeys env f zoomLevel = []) :
    (Stylist.ctor env f zoomLevel deviceLang).m_symbolRule = none ∧
    (Stylist.ctor env f zoomLevel deviceLang).m_captionRule = none ∧
    (Stylist.ctor env f zoomLevel deviceLang).m_pathtextRule = none ∧
    (Stylist.ctor env f zoomLevel deviceLang).m_shieldRule = none ∧
    (Stylist.ctor env f zoomLevel deviceLang).m_houseNumberRule = none ∧
    (Stylist.ctor env f zoomLevel deviceLang).m_areaRule = none ∧
    (Stylist.ctor env f zoomLevel deviceLang).m_hatchingRule = none ∧
    (Stylist.ctor env f zoomLevel deviceLang).m_lineRules = [] ∧
    (Stylist.ctor env f zoomLevel deviceLang).m_captionDescriptor.m_mainText = [] ∧
    (Stylist.ctor env f zoomLevel deviceLang).m_captionDescriptor.m_auxText = [] ∧
    (Stylist.ctor env f zoomLevel deviceLang).m_captionDescriptor.m_houseNumberText = [] := by
  have h : Stylist.ctor env f zoomLevel deviceLang = {} := by
    unfold Stylist.ctor
    simp only [hkeys, List.isEmpty_nil, if_true]
  rw [h]
  exact ⟨rfl, rfl, rfl, rfl, rfl, rfl, rfl, rfl, rfl, rfl, rfl⟩

/-- C11, at a concrete input: a named Line feature with a house number whose only type has
no suitable rule in the sample classifier. -/
theorem Stylist_empty_keys_witness :
    Stylist.collectKeys sample.env
      (sample.mkFeature [1] GeomType.Line "Shore".toList [] "7".toList) 15 = [] ∧
    (Stylist.ctor sample.env
      (sample.mkFeature [1] GeomType.Line "Shore".toList [] "7".toList) 15 0).m_lineRules = [] ∧
    (Stylist.ctor sample.env (sample.mkFeature [1] GeomType.Line "Shore".toList [] "7".toList)
      15 0).m_captionDescriptor.m_mainText = [] :=
  have h := Stylist_empty_keys sample.env
    (sample.mkFeature [1] GeomType.Line "Shore".toList [] "7".toList) 15 0 (by decide)
  ⟨by decide, h.2.2.2.2.2.2.2.1, h.2.2.2.2.2.2.2.2.1⟩

/-- The loop over the types: either no type has a priority above the running maximum and
the running choice stays, or the result is the first type of the largest priority. -/
theorem mainOverlayLoop_spec (cl : Classificator) :
    ∀ (l : List Nat) (p0 : Int) (t0 : Nat),
      ((∀ t ∈ l, cl.GetMaxOverlaysPriority t ≤ p0) ∧ mainOverlayLoop cl l p0 t0 = t0) ∨
      (∃ pre post, l = pre ++ mainOverlayLoop cl l p0 t0 :: post ∧
        p0 < cl.GetMaxOverlaysPriority (mainOverlayLoop cl l p0 t0) ∧
        (∀ t ∈ pre, cl.GetMaxOverlaysPriority t <
          cl.GetMaxOverlaysPriority (mainOverlayLoop cl l p0 t0)) ∧
        (∀ t ∈ post, cl.GetMaxOverlaysPriority t ≤
          cl.GetMaxOverlaysPriority (mainOverlayLoop cl l p0 t0)))
  | [], p0, t0 => Or.inl ⟨fun _ h => absurd h (List.not_mem_nil _), rfl⟩
  | t :: ts, p0, t0 => by
    unfold mainOverlayLoop
    simp only
    by_cases hgt : cl.GetMaxOverlaysPriority t > p0
    · rw [if_pos hgt]
      rcases mainOverlayLoop_spec cl ts (cl.GetMaxOverlaysPriority t) t with ⟨hall, heq⟩ | h
      · rw [heq]
        exact Or.inr ⟨[], ts, rfl, hgt, fun _ h => absurd h (List.not_mem_nil _), hall⟩
      · obtain ⟨pre, post, hl, hlt, hpre, hpost⟩ := h
        refine Or.inr ⟨t :: pre, post, ?_, lt_trans hgt hlt, ?_, hpost⟩
        · rw [List.cons_append, ← hl]
        · intro u hu
          rcases List.mem_cons.mp hu with rfl | hu2
          · exact hlt
          · exact hpre u hu2
    · rw [if_neg hgt]
      have hle : cl.GetMaxOverlaysPriority t ≤ p0 := not_lt.mp hgt
      rcases mainOverlayLoop_spec cl ts p0 t0 with ⟨hall, heq⟩ | h
      · refine Or.inl ⟨?_, heq⟩
        intro u hu
        rcases List.mem_cons.mp hu with rfl | hu2
        · exact hle
        · exact hall u hu2
      · obtain ⟨pre, post, hl, hlt, hpre, hpost⟩ := h
        refine Or.inr ⟨t :: pre, post, ?_, hlt, ?_, hpost⟩
        · rw [List.cons_append, ← hl]
        · intro u hu
          rcases List.mem_cons.mp hu with rfl | hu2
          · exact lt_of_le_of_lt hle hlt
          · exact hpre u hu2

/-- C13, counterexample: a feature with the two types 5 and 6, neither of which has an
overlay priority above `std::numeric_limits<int>::min()`: the main overlay type stays 0,
which is not one of the feature's types. -/
theorem mainOverlayType_counterexample :
    ¬ (mainOverlayType sample.noOverlayClassificator [5, 6] ∈ [5, 6]) := by
  decide

/-- C13, amended: for a feature with exactly one type the main overlay type is that type;
for a feature with two or more types of which at least one has a maximum overlay priority
above `std::numeric_limits<int>::min()`, it is one of the feature's types, every type
before it in iteration order has a strictly smaller priority and every type after it a
smaller or equal one (so it has the largest priority and is the first of the types tied
for it); when no type has a priority above that minimum it stays 0. -/
theorem mainOverlayType_spec (cl : Classificator) (types : List Nat) :
    (∀ t, types = [t] → mainOverlayType cl types = t) ∧
    (2 ≤ types.length → (∃ t ∈ types, INT_MIN < cl.GetMaxOverlaysPriority t) →
      ∃ pre post, types = pre ++ mainOverlayType cl types :: post ∧
        (∀ t ∈ pre, cl.GetMaxOverlaysPriority t <
          cl.GetMaxOverlaysPriority (mainOverlayType cl types)) ∧
        (∀ t ∈ post, cl.GetMaxOverlaysPriority t ≤
          cl.GetMaxOverlaysPriority (mainOverlayType cl types))) ∧
    (2 ≤ types.length → (∀ t ∈ types, cl.GetMaxOverlaysPriority t ≤ INT_MIN) →
      mainOverlayType cl types = 0) := by
  refine ⟨?_, ?_, ?_⟩
  · intro t ht
    rw [ht]
    rfl
  · intro hlen ⟨t, ht, hp⟩
    have hne : ¬ types.length = 1 := by omega
    unfold mainOverlayType
    rw [if_neg hne]
    rcases mainOverlayLoop_spec cl types INT_MIN 0 with ⟨hall, _⟩ | h
    · exact absurd hp (not_lt.mpr (hall t ht))
    · obtain ⟨pre, post, hl, _, hpre, hpost⟩ := h
      exact ⟨pre, post, hl, hpre, hpost⟩
  · intro hlen hall
    have hne : ¬ types.length = 1 := by omega
    unfold mainOverlayType
    rw [if_neg hne]
    rcases mainOverlayLoop_spec cl types INT_MIN 0 with ⟨_, heq⟩ | h
    · exact heq
    · obtain ⟨pre, post, hl, hlt, _, _⟩ := h
      have hmem : ∀ (x : Nat) (l : List Nat), l = pre ++ x :: post → x ∈ l :=
        fun x l h => by rw [h]; simp
      exact absurd hlt (not_lt.mpr (hall _ (hmem _ _ hl)))

/-- C13, amended, at a concrete input: three types of priorities 10, 50, 50; the main
overlay type is the first of the two types of priority 50. -/
theorem mainOverlayType_spec_witness :
    ∃ pre post, [20, 30, 31] = pre ++ mainOverlayType
        { sample.captionClassificator with
          GetMaxOverlaysPriority := fun t => if t = 20 then 10 else 50 } [20, 30, 31] :: post ∧
      (∀ t ∈ pre, (if t = 20 then (10 : Int) else 50) <
        (if mainOverlayType
          { sample.captionClassificator with
            GetMaxOverlaysPriority := fun t => if t = 20 then 10 else 50 } [20, 30, 31] = 20
          then (10 : Int) else 50)) ∧
      (∀ t ∈ post, (if t = 20 then (10 : Int) else 50) ≤
        (if mainOverlayType
          { sample.captionClassificator with
            GetMaxOverlaysPriority := fun t => if t = 20 then 10 else 50 } [20, 30, 31] = 20
          then (10 : Int) else 50)) :=
  (mainOverlayType_spec
    { sample.captionClassificator with
      GetMaxOverlaysPriority := fun t => if t = 20 then 10 else 50 } [20, 30, 31]).2.1
    (by decide) ⟨30, by decide, by decide⟩

/-! ## Claim on `IsHatchingTerritoryChecker::IsMatched` -/

/-- C18: over types given as paths, with `PrepareToMatch(t, n)` truncating to at most `n`
levels, `IsMatched(t)` is true exactly when the 3-level truncation of `t` is
boundary/protected_area/1 or the 2-level truncation of `t` is leisure/nature_reserve,
boundary/national_park or landuse/military; so it is true for each listed type and all
its subtypes, and false for boundary/protected_area/2. -/
theorem IsMatched_path_iff :
    (∀ t : List String, pathChecker.IsMatched pathPrepareToMatch t = true ↔
      (t.take 3 = ["boundary", "protected_area", "1"] ∨
        t.take 2 = ["leisure", "nature_reserve"] ∨
        t.take 2 = ["boundary", "national_park"] ∨
        t.take 2 = ["landuse", "military"])) ∧
    (∀ sub : List String,
      pathChecker.IsMatched pathPrepareToMatch (["boundary", "protected_area", "1"] ++ sub) = true ∧
      pathChecker.IsMatched pathPrepareToMatch (["leisure", "nature_reserve"] ++ sub) = true ∧
      pathChecker.IsMatched pathPrepareToMatch (["boundary", "national_park"] ++ sub) = true ∧
      pathChecker.IsMatched pathPrepareToMatch (["landuse", "military"] ++ sub) = true) ∧
    pathChecker.IsMatched pathPrepareToMatch ["boundary", "protected_area", "2"] = false := by
  have hiff : ∀ t : List String, pathChecker.IsMatched pathPrepareToMatch t = true ↔
      (t.take 3 = ["boundary", "protected_area", "1"] ∨
        t.take 2 = ["leisure", "nature_reserve"] ∨
        t.take 2 = ["boundary", "national_park"] ∨
        t.take 2 = ["landuse", "military"]) := by
    intro t
    unfold IsHatchingTerritoryChecker.IsMatched pathChecker IsHatchingTerritoryChecker.create
      pathPrepareToMatch
    simp only [List.map_cons, List.map_nil, id_eq, List.length_cons, List.length_nil]
    by_cases h3 : t.take 3 = ["boundary", "protected_area", "1"]
    · simp [h3]
    · simp [h3]
  refine ⟨hiff, fun sub => ⟨?_, ?_, ?_, ?_⟩, by decide⟩
  · exact (hiff _).mpr (Or.inl (by simp))
  · exact (hiff _).mpr (Or.inr (Or.inl (by simp)))
  · exact (hiff _).mpr (Or.inr (Or.inr (Or.inl (by simp))))
  · exact (hiff _).mpr (Or.inr (Or.inr (Or.inr (by simp))))

/-! ## Claim on the accumulated key set -/

theorem mem_typeKeysLoop {t main : Nat} {hasH : Bool} {k : Key} :
    ∀ {typeKeys : List Key}, k ∈ typeKeysLoop t main hasH typeKeys ↔
      ∃ k0 ∈ typeKeys, (t = main ∨ isOverlayKind k0 = false) ∧ k = tagHatching hasH k0
  | [] => by simp [typeKeysLoop]
  | x :: xs => by
    have ih := @mem_typeKeysLoop t main hasH k xs
    have hcond : (t = main ∨ (x.m_type ≠ caption ∧ x.m_type ≠ symbol ∧ x.m_type ≠ shield ∧
        x.m_type ≠ pathtext)) ↔ (t = main ∨ isOverlayKind x = false) := by
      unfold isOverlayKind
      simp only [ne_eq, decide_eq_false_iff_not, not_or]
    unfold typeKeysLoop
    by_cases hc : t = main ∨ (x.m_type ≠ caption ∧ x.m_type ≠ symbol ∧ x.m_type ≠ shield ∧
        x.m_type ≠ pathtext)
    · rw [if_pos hc, List.mem_cons, ih]
      constructor
      · rintro (h | ⟨k0, hk0, hk⟩)
        · exact ⟨x, List.mem_cons_self _ _, hcond.mp hc, h⟩
        · exact ⟨k0, List.mem_cons_of_mem _ hk0, hk⟩
      · rintro ⟨k0, hk0, hk⟩
        rcases List.mem_cons.mp hk0 with rfl | hk0'
        · exact Or.inl hk.2
        · exact Or.inr ⟨k0, hk0', hk⟩
    · rw [if_neg hc, ih]
      constructor
      · rintro ⟨k0, hk0, hk⟩
        exact ⟨k0, List.mem_cons_of_mem _ hk0, hk⟩
      · rintro ⟨k0, hk0, hk⟩
        rcases List.mem_cons.mp hk0 with rfl | hk0'
        · exact absurd (hcond.mpr hk.1) hc
        · exact ⟨k0, hk0', hk⟩

theorem mem_keysLoop {env : Env} {zoomLevel : Nat} {geomType : GeomType} {main : Nat} {k : Key} :
    ∀ {types : List Nat}, k ∈ keysLoop env zoomLevel geomType main types ↔
      ∃ t ∈ types, ∃ k0 ∈ env.cl.GetSuitable t zoomLevel geomType,
        (t = main ∨ isOverlayKind k0 = false) ∧ k = tagHatching (hasHatching env t) k0
  | [] => by simp [keysLoop]
  | t :: ts => by
    have ih := @mem_keysLoop env zoomLevel geomType main k ts
    unfold keysLoop
    simp only [List.mem_append, mem_typeKeysLoop, ih, List.mem_cons, exists_eq_or_imp, hasHatching]

theorem tagHatching_overlay {hasH : Bool} {k : Key} (h : isOverlayKind k = true) :
    tagHatching hasH k = k := by
  unfold isOverlayKind at h
  simp only [decide_eq_true_eq] at h
  unfold tagHatching
  rw [if_neg]
  rintro ⟨_, ha⟩
  rw [ha] at h
  revert h
  decide

theorem isOverlayKind_tagHatching (hasH : Bool) (k : Key) :
    isOverlayKind (tagHatching hasH k) = isOverlayKind k := by
  unfold tagHatching isOverlayKind
  split_ifs <;> rfl

end df

namespace df
open drule feature

theorem keySlot_overlay {k : Key} {σ : Slot} (h : keySlot k = some σ)
    (hσ : σ ≠ Slot.area ∧ σ ≠ Slot.hatching) :
    isOverlayKind k = true ∧
    (σ = Slot.symbol → k.m_type = symbol) ∧ (σ = Slot.caption → k.m_type = caption) ∧
    (σ = Slot.pathtext → k.m_type = pathtext) ∧ (σ = Slot.shield → k.m_type = shield) := by
  unfold keySlot at h
  unfold isOverlayKind
  simp only [decide_eq_true_eq]
  split_ifs at h with h1 h2 h3 h4 h5 h6 h7 <;>
    simp only [Option.some.injEq, reduceCtorEq] at h <;> subst h <;>
    simp_all [symbol, caption, pathtext, shield, line, area]

theorem keySlot_class (σ : Slot) (k : Key) :
    decide (keySlot k = some σ) =
      match σ with
      | Slot.symbol => decide (k.m_type = symbol)
      | Slot.caption => decide (k.m_type = caption)
      | Slot.pathtext => decide (k.m_type = pathtext)
      | Slot.shield => decide (k.m_type = shield)
      | Slot.area => decide (k.m_type = area ∧ k.m_hatching = false)
      | Slot.hatching => decide (k.m_type = area ∧ k.m_hatching = true) := by
  unfold keySlot
  cases σ <;> simp only [] <;> split_ifs <;>
    simp_all [symbol, caption, pathtext, shield, line, area]

theorem processKey_slot (env : Env) (f : FeatureType) (s : Stylist) (k : Key) (σ : Slot) :
    (s.ProcessKey env f k).slot σ = if keySlot k = some σ then some (env.Find k) else s.slot σ := by
  unfold Stylist.ProcessKey keySlot
  cases σ <;> simp only [] <;> split_ifs <;> simp_all [Stylist.slot]

theorem slotIsNull_eq (s : Stylist) (k : Key) :
    s.slotIsNull k = match keySlot k with
      | some σ => (s.slot σ).isNone
      | none => true := by
  unfold Stylist.slotIsNull keySlot
  split_ifs <;> rfl

theorem processKey_frame (env : Env) (f : FeatureType) (s : Stylist) (k : Key) :
    (s.ProcessKey env f k).m_houseNumberRule = s.m_houseNumberRule ∧
    (s.ProcessKey env f k).m_captionDescriptor = s.m_captionDescriptor ∧
    (s.ProcessKey env f k).m_isCoastline = s.m_isCoastline := by
  unfold Stylist.ProcessKey
  split_ifs <;> exact ⟨rfl, rfl, rfl⟩

theorem foldl_processKey_frame (env : Env) (f : FeatureType) :
    ∀ (l : List Key) (s : Stylist),
      (l.foldl (fun (s : Stylist) key => s.ProcessKey env f key) s).m_houseNumberRule =
        s.m_houseNumberRule ∧
      (l.foldl (fun (s : Stylist) key => s.ProcessKey env f key) s).m_captionDescriptor =
        s.m_captionDescriptor
  | [], _ => ⟨rfl, rfl⟩
  | k :: ks, s => by
    have ih := foldl_processKey_frame env f ks (s.ProcessKey env f k)
    have hk := processKey_frame env f s k
    rw [List.foldl_cons]
    exact ⟨ih.1.trans hk.1, ih.2.trans hk.2.1⟩

theorem foldl_processKey_slot (env : Env) (f : FeatureType) (σ : Slot) (r : BaseRule) :
    ∀ (l : List Key) (s : Stylist),
      (l.foldl (fun (s : Stylist) key => s.ProcessKey env f key) s).slot σ = some r →
      s.slot σ = some r ∨ ∃ k ∈ l, keySlot k = some σ ∧ r = env.Find k
  | [], _, h => Or.inl h
  | k :: ks, s, h => by
    rw [List.foldl_cons] at h
    rcases foldl_processKey_slot env f σ r ks _ h with h1 | ⟨k2, hk2, hs, hr⟩
    · rw [processKey_slot] at h1
      by_cases hk : keySlot k = some σ
      · rw [if_pos hk] at h1
        exact Or.inr ⟨k, List.mem_cons_self _ _, hk, (Option.some.inj h1).symm⟩
      · rw [if_neg hk] at h1
        exact Or.inl h1
    · exact Or.inr ⟨k2, List.mem_cons_of_mem _ hk2, hs, hr⟩

theorem houseNumberStep_frame (env : Env) (s : Stylist) (f : FeatureType) (zoomLevel : Nat)
    (geomType : GeomType) (main : Nat) :
    (∀ σ, (houseNumberStep env s f zoomLevel geomType main).slot σ = s.slot σ) ∧
    (houseNumberStep env s f zoomLevel geomType main).m_captionDescriptor =
      s.m_captionDescriptor := by
  unfold houseNumberStep
  simp only
  split_ifs <;> first
    | exact ⟨fun σ => by cases σ <;> rfl, rfl⟩
    | (split <;> exact ⟨fun σ => by cases σ <;> rfl, rfl⟩)

theorem slot_withDescriptor (s : Stylist) (d : CaptionDescription) (σ : Slot) :
    ({ s with m_captionDescriptor := d } : Stylist).slot σ = s.slot σ := by
  cases σ <;> rfl

theorem slot_clearCaption (s : Stylist) (σ : Slot) (r : BaseRule)
    (h : ({ s with m_captionRule := none, m_pathtextRule := none } : Stylist).slot σ = some r) :
    s.slot σ = some r := by
  cases σ <;> first | exact h | exact absurd h (by simp [Stylist.slot])

theorem captionStep_slot (env : Env) (s : Stylist) (f : FeatureType) (zoomLevel : Nat)
    (deviceLang : Int) (geomType : GeomType) (main : Nat) (σ : Slot) (r : BaseRule)
    (h : (captionStep env s f zoomLevel deviceLang geomType main).slot σ = some r) :
    s.slot σ = some r := by
  unfold captionStep at h
  simp only at h
  split_ifs at h
  · have h2 := slot_clearCaption _ σ r h
    rw [(houseNumberStep_frame env _ f zoomLevel geomType main).1 σ, slot_withDescriptor] at h2
    exact h2
  · rw [(houseNumberStep_frame env _ f zoomLevel geomType main).1 σ, slot_withDescriptor] at h
    exact h
  · have h2 := slot_clearCaption _ σ r h
    rw [slot_withDescriptor] at h2
    exact h2
  · rw [slot_withDescriptor] at h
    exact h
  · exact h

/-- The two ways the constructor ends: with an empty key set the default decision; else the
caption step applied to the state left by `ProcessKey` over the deduplicated keys, in which
the house-number rule is null and the caption descriptor is fresh. -/
theorem ctor_cases (env : Env) (f : FeatureType) (zoomLevel : Nat) (deviceLang : Int) :
    (Stylist.collectKeys env f zoomLevel = [] ∧ Stylist.ctor env f zoomLevel deviceLang = {}) ∨
    (∃ s0 : Stylist,
      s0 = (MakeUnique (Stylist.collectKeys env f zoomLevel)).foldl
        (fun (s : Stylist) key => s.ProcessKey env f key) {} ∧
      s0.m_houseNumberRule = none ∧ s0.m_captionDescriptor = {} ∧
      Stylist.ctor env f zoomLevel deviceLang =
        { captionStep env s0 f zoomLevel deviceLang f.GetGeomType
            (mainOverlayType env.cl f.types) with
          m_isCoastline := decide (env.cl.GetCoastType ∈ f.types) }) := by
  unfold Stylist.ctor
  cases hkeys : Stylist.collectKeys env f zoomLevel with
  | nil => exact Or.inl ⟨rfl, rfl⟩
  | cons k ks =>
    refine Or.inr ⟨_, rfl, ?_, ?_, ?_⟩
    · exact (foldl_processKey_frame env f _ _).1
    · exact (foldl_processKey_frame env f _ _).2
    · simp only [List.isEmpty_cons, Bool.false_eq_true, if_false]

theorem slot_withCoastline (s : Stylist) (b : Bool) (σ : Slot) :
    ({ s with m_isCoastline := b } : Stylist).slot σ = s.slot σ := by
  cases σ <;> rfl

theorem slot_default (σ : Slot) : ({} : Stylist).slot σ = none := by
  cases σ <;> rfl

theorem Stylist_overlay_slot_from_main (env : Env) (f : FeatureType) (zoomLevel : Nat)
    (deviceLang : Int)
    (hfilter : ∀ keys k, k ∈ env.FilterRulesByRuntimeSelector f zoomLevel keys → k ∈ keys)
    (σ : Slot) (hσ : σ ≠ Slot.area ∧ σ ≠ Slot.hatching) (r : BaseRule)
    (h : (Stylist.ctor env f zoomLevel deviceLang).slot σ = some r) :
    ∃ k ∈ env.cl.GetSuitable (mainOverlayType env.cl f.types) zoomLevel f.GetGeomType,
      keySlot k = some σ ∧ r = env.Find k := by
  rcases ctor_cases env f zoomLevel deviceLang with ⟨_, hd⟩ | ⟨s0, hs0, _, _, hd⟩
  · rw [hd, slot_default] at h
    exact absurd h (by simp)
  · rw [hd, slot_withCoastline] at h
    have h1 := captionStep_slot env s0 f zoomLevel deviceLang _ _ σ r h
    rw [hs0] at h1
    rcases foldl_processKey_slot env f σ r _ _ h1 with h2 | ⟨k, hk, hks, hr⟩
    · rw [slot_default] at h2
      exact absurd h2 (by simp)
    · have hk2 : k ∈ Stylist.collectKeys env f zoomLevel := mem_of_mem_MakeUnique hk
      have hk3 := hfilter _ _ hk2
      obtain ⟨t, _, k0, hk0, hcond, hkeq⟩ := mem_keysLoop.mp hk3
      have hov : isOverlayKind k = true := (keySlot_overlay hks hσ).1
      have hov0 : isOverlayKind k0 = true := by
        rw [hkeq, isOverlayKind_tagHatching] at hov
        exact hov
      have hkk : k = k0 := by rw [hkeq, tagHatching_overlay hov0]
      have ht : t = mainOverlayType env.cl f.types := by
        rcases hcond with ht | hno
        · exact ht
        · rw [hov0] at hno
          exact absurd hno (by decide)
      subst hkk
      rw [ht] at hk0
      exact ⟨k, hk0, hks, hr⟩

/-- C12: every key of kind Caption, Symbol, Shield or PathText in the key set accumulated
by `Stylist` (before the runtime filter) was returned by the suitable-rule lookup of the
main overlay type; every key of another kind returned for any of the feature's types is
accumulated (an Area key of a hatching territory with the hatching flag set); hence, the
runtime filter returning only keys it was given, the symbol, caption, pathtext and shield
rules of the decision are rules of keys returned for the main overlay type. -/
theorem Stylist_overlay_keys_from_main (env : Env) (f : FeatureType) (zoomLevel : Nat)
    (deviceLang : Int) :
    (∀ k ∈ Stylist.accumulatedKeys env f zoomLevel, isOverlayKind k = true →
      k ∈ env.cl.GetSuitable (mainOverlayType env.cl f.types) zoomLevel f.GetGeomType) ∧
    (∀ t ∈ f.types, ∀ k ∈ env.cl.GetSuitable t zoomLevel f.GetGeomType,
      isOverlayKind k = false →
      tagHatching (hasHatching env t) k ∈ Stylist.accumulatedKeys env f zoomLevel) ∧
    ((∀ keys k, k ∈ env.FilterRulesByRuntimeSelector f zoomLevel keys → k ∈ keys) →
      ∀ r : BaseRule,
        ((Stylist.ctor env f zoomLevel deviceLang).m_symbolRule = some r →
          ∃ k ∈ env.cl.GetSuitable (mainOverlayType env.cl f.types) zoomLevel f.GetGeomType,
            k.m_type = symbol ∧ r = env.Find k) ∧
        ((Stylist.ctor env f zoomLevel deviceLang).m_captionRule = some r →
          ∃ k ∈ env.cl.GetSuitable (mainOverlayType env.cl f.types) zoomLevel f.GetGeomType,
            k.m_type = caption ∧ r = env.Find k) ∧
        ((Stylist.ctor env f zoomLevel deviceLang).m_pathtextRule = some r →
          ∃ k ∈ env.cl.GetSuitable (mainOverlayType env.cl f.types) zoomLevel f.GetGeomType,
            k.m_type = pathtext ∧ r = env.Find k) ∧
        ((Stylist.ctor env f zoomLevel deviceLang).m_shieldRule = some r →
          ∃ k ∈ env.cl.GetSuitable (mainOverlayType env.cl f.types) zoomLevel f.GetGeomType,
            k.m_type = shield ∧ r = env.Find k)) := by
  refine ⟨?_, ?_, ?_⟩
  · intro k hk hov
    obtain ⟨t, _, k0, hk0, hcond, hkeq⟩ := mem_keysLoop.mp hk
    have hov0 : isOverlayKind k0 = true := by
      rw [hkeq, isOverlayKind_tagHatching] at hov
      exact hov
    have hkk : k = k0 := by rw [hkeq, tagHatching_overlay hov0]
    rcases hcond with ht | hno
    · rw [hkk, ← ht]; exact hk0
    · rw [hov0] at hno
      exact absurd hno (by decide)
  · intro t ht k hk hno
    exact mem_keysLoop.mpr ⟨t, ht, k, hk, Or.inr hno, rfl⟩
  · intro hfilter r
    refine ⟨fun h => ?_, fun h => ?_, fun h => ?_, fun h => ?_⟩
    · obtain ⟨k, hk, hs, hr⟩ := Stylist_overlay_slot_from_main env f zoomLevel deviceLang
        hfilter Slot.symbol (by decide) r h
      exact ⟨k, hk, (keySlot_overlay hs (by decide)).2.1 rfl, hr⟩
    · obtain ⟨k, hk, hs, hr⟩ := Stylist_overlay_slot_from_main env f zoomLevel deviceLang
        hfilter Slot.caption (by decide) r h
      exact ⟨k, hk, (keySlot_overlay hs (by decide)).2.2.1 rfl, hr⟩
    · obtain ⟨k, hk, hs, hr⟩ := Stylist_overlay_slot_from_main env f zoomLevel deviceLang
        hfilter Slot.pathtext (by decide) r h
      exact ⟨k, hk, (keySlot_overlay hs (by decide)).2.2.2.1 rfl, hr⟩
    · obtain ⟨k, hk, hs, hr⟩ := Stylist_overlay_slot_from_main env f zoomLevel deviceLang
        hfilter Slot.shield (by decide) r h
      exact ⟨k, hk, (keySlot_overlay hs (by decide)).2.2.2.2 rfl, hr⟩

/-- C12, at a concrete input: a named Point feature of types 30 and 20 in the sample
classifier, where 30 is the main overlay type; the caption rule of the decision is the rule
of a Caption key returned for type 30. -/
theorem Stylist_overlay_keys_from_main_witness :
    ∃ k ∈ sample.captionEnv.cl.GetSuitable (mainOverlayType sample.captionEnv.cl [30, 20]) 15
        GeomType.Point,
      k.m_type = caption ∧
      (⟨3, true, true, true, true, true, true⟩ : BaseRule) = sample.captionEnv.Find k :=
  ((Stylist_overlay_keys_from_main sample.captionEnv
    (sample.mkFeature [30, 20] GeomType.Point "Cafe".toList [] []) 15 0).2.2
    (fun _ _ h => h) ⟨3, true, true, true, true, true, true⟩).2.1 (by decide)

/-! ## Claim on the slot assertions of `ProcessKey` -/

theorem slotAssertsHold_of_classes (env : Env) (f : FeatureType) :
    ∀ (l : List Key) (s : Stylist),
      (∀ σ, (l.filter (fun k => decide (keySlot k = some σ))).length ≤ 1 ∧
        (s.slot σ ≠ none → l.filter (fun k => decide (keySlot k = some σ)) = [])) →
      slotAssertsHold env f s l = true
  | [], _, _ => rfl
  | k :: ks, s, h => by
    unfold slotAssertsHold
    rw [Bool.and_eq_true]
    constructor
    · rw [slotIsNull_eq]
      cases hk : keySlot k with
      | none => rfl
      | some σ0 =>
        simp only
        cases hs : s.slot σ0 with
        | none => rfl
        | some r =>
          have hnil := (h σ0).2 (by rw [hs]; simp)
          rw [List.filter_cons, if_pos (by simp [hk])] at hnil
          exact absurd hnil (by simp)
    · apply slotAssertsHold_of_classes env f ks
      intro σ
      have hlen := (h σ).1
      by_cases hk : keySlot k = some σ
      · rw [List.filter_cons, if_pos (by simp [hk]), List.length_cons] at hlen
        have hnil : ks.filter (fun k => decide (keySlot k = some σ)) = [] :=
          List.length_eq_zero.mp (by omega)
        exact ⟨by rw [hnil]; simp, fun _ => hnil⟩
      · have hfil : (k :: ks).filter (fun k => decide (keySlot k = some σ)) =
            ks.filter (fun k => decide (keySlot k = some σ)) := by
          rw [List.filter_cons, if_neg (by simp [hk])]
        rw [hfil] at hlen
        refine ⟨hlen, fun hne => ?_⟩
        rw [processKey_slot, if_neg hk] at hne
        rw [← hfil]
        exact (h σ).2 hne

theorem MakeUnique_slot_class_length (σ : Slot) (keys : List Key) :
    ((MakeUnique keys).filter (fun k => decide (keySlot k = some σ))).length ≤ 1 := by
  have hlen : ∀ {P : Key → Bool}, CollapsedClass P → ((MakeUnique keys).filter P).length ≤ 1 := by
    intro P hP
    have hfil : (MakeUnique keys).filter P = (((sort less_key keys).filter P).head?).toList :=
      filter_unique_class hP _ (sort_less_key_sorted keys)
    rw [hfil]
    cases (List.filter P (sort less_key keys)).head? <;> simp
  have hpred := funext (keySlot_class σ)
  rw [hpred]
  cases σ
  · exact hlen (collapsedClass_kind symbol (by decide) (by decide))
  · exact hlen (collapsedClass_kind caption (by decide) (by decide))
  · exact hlen (collapsedClass_kind pathtext (by decide) (by decide))
  · exact hlen (collapsedClass_kind shield (by decide) (by decide))
  · exact hlen (collapsedClass_area false)
  · exact hlen (collapsedClass_area true)

/-- C17: for every key sequence (in particular one of supported kinds in which only Area
keys carry the hatching flag), feeding the output of `MakeUnique` to `ProcessKey` in
order, starting from the default-constructed stylist, never meets an already-filled
symbol, caption, pathtext, shield, area or hatching slot: every `slot == nullptr`
assertion of `ProcessKey` holds, so each of these slots is assigned at most once. -/
theorem MakeUnique_slots_free (env : Env) (f : FeatureType) (keys : List Key) :
    slotAssertsHold env f {} (MakeUnique keys) = true := by
  apply slotAssertsHold_of_classes
  intro σ
  refine ⟨MakeUnique_slot_class_length σ keys, fun hne => ?_⟩
  rw [slot_default] at hne
  exact absurd rfl hne

/-- The slot check is not vacuous: two Symbol keys fed without deduplication meet a filled
symbol slot. -/
theorem slotAssertsHold_detects_duplicate :
    slotAssertsHold sample.env (sample.mkFeature [5] GeomType.Point [] [] []) {}
      [⟨1, symbol, 1, 1, false⟩, ⟨1, symbol, 2, 2, false⟩] = false := by
  decide

/-! ## Claims on the caption step of the constructor -/

/-- The caption step when a caption or pathtext rule is present: the descriptor is the one
computed by `Init`, and the two rules are kept exactly when a name exists. -/
theorem captionStep_spec (env : Env) (s : Stylist) (f : FeatureType) (zoomLevel : Nat)
    (deviceLang : Int) (geomType : GeomType) (main : Nat)
    (h : s.m_captionRule ≠ none ∨ s.m_pathtextRule ≠ none) :
    (captionStep env s f zoomLevel deviceLang geomType main).m_captionDescriptor =
      s.m_captionDescriptor.Init env.sc f deviceLang zoomLevel geomType s.m_auxCaptionFound ∧
    (captionStep env s f zoomLevel deviceLang geomType main).m_captionRule =
      (if (s.m_captionDescriptor.Init env.sc f deviceLang zoomLevel geomType
        s.m_auxCaptionFound).IsNameExists = true then s.m_captionRule else none) ∧
    (captionStep env s f zoomLevel deviceLang geomType main).m_pathtextRule =
      (if (s.m_captionDescriptor.Init env.sc f deviceLang zoomLevel geomType
        s.m_auxCaptionFound).IsNameExists = true then s.m_pathtextRule else none) := by
  have hf := fun s1 => houseNumberStep_frame env s1 f zoomLevel geomType main
  unfold captionStep
  rw [if_pos h]
  simp only
  split_ifs with h2 h3 h4 h5 h6 <;>
    first
    | exact ⟨rfl, rfl, rfl⟩
    | exact ⟨(hf _).2, (hf _).1 Slot.caption, (hf _).1 Slot.pathtext⟩
    | exact ⟨(hf _).2, rfl, rfl⟩
    | (rw [(hf _).2] at h3; simp_all)
    | simp_all

theorem captionStep_of_no_caption (env : Env) (s : Stylist) (f : FeatureType) (zoomLevel : Nat)
    (deviceLang : Int) (geomType : GeomType) (main : Nat)
    (h : ¬ (s.m_captionRule ≠ none ∨ s.m_pathtextRule ≠ none)) :
    captionStep env s f zoomLevel deviceLang geomType main = s := by
  unfold captionStep
  rw [if_neg h]

/-- C15: in every decision built by `Stylist`, a non-null captionRule or a non-null
pathtextRule implies that the caption descriptor has a name: its main text is non-empty
(`IsNameExists`). -/
theorem Stylist_caption_needs_name (env : Env) (f : FeatureType) (zoomLevel : Nat)
    (deviceLang : Int)
    (h : (Stylist.ctor env f zoomLevel deviceLang).m_captionRule ≠ none ∨
      (Stylist.ctor env f zoomLevel deviceLang).m_pathtextRule ≠ none) :
    (Stylist.ctor env f zoomLevel deviceLang).m_captionDescriptor.IsNameExists = true ∧
    (Stylist.ctor env f zoomLevel deviceLang).m_captionDescriptor.m_mainText ≠ [] := by
  have hname : (Stylist.ctor env f zoomLevel deviceLang).m_captionDescriptor.IsNameExists
      = true := by
    rcases ctor_cases env f zoomLevel deviceLang with ⟨_, hd⟩ | ⟨s0, _, _, _, hd⟩
    · rw [hd] at h
      exact absurd h (by simp)
    · rw [hd] at h ⊢
      simp only at h ⊢
      by_cases hc : s0.m_captionRule ≠ none ∨ s0.m_pathtextRule ≠ none
      · obtain ⟨h1, h2, h3⟩ := captionStep_spec env s0 f zoomLevel deviceLang f.GetGeomType
          (mainOverlayType env.cl f.types) hc
        rw [h2, h3] at h
        rw [h1]
        by_contra hn
        rw [if_neg hn, if_neg hn] at h
        exact absurd h (by simp)
      · rw [captionStep_of_no_caption env s0 f zoomLevel deviceLang _ _ hc] at h
        exact absurd h hc
  refine ⟨hname, ?_⟩
  unfold CaptionDescription.IsNameExists at hname
  intro hnil
  rw [hnil] at hname
  exact absurd hname (by decide)

/-- C15, at a concrete input: a Point feature named "Cafe" whose single type has a Caption
rule. -/
theorem Stylist_caption_needs_name_witness :
    ((Stylist.ctor sample.captionEnv (sample.mkFeature [30] GeomType.Point "Cafe".toList [] [])
        15 0).m_captionRule ≠ none ∨
      (Stylist.ctor sample.captionEnv (sample.mkFeature [30] GeomType.Point "Cafe".toList [] [])
        15 0).m_pathtextRule ≠ none) ∧
    (Stylist.ctor sample.captionEnv (sample.mkFeature [30] GeomType.Point "Cafe".toList [] [])
      15 0).m_captionDescriptor.m_mainText ≠ [] :=
  ⟨by decide,
    (Stylist_caption_needs_name sample.captionEnv
      (sample.mkFeature [30] GeomType.Point "Cafe".toList [] []) 15 0 (by decide)).2⟩

/-- C14, counterexample: a Point feature without a name whose single type has exactly one
suitable rule, a Caption rule kept by the runtime selector: the decision has a null
captionRule and an empty main text. -/
theorem Stylist_single_caption_counterexample :
    sample.captionEnv.cl.GetSuitable 30 15 GeomType.Point =
      [⟨15, caption, 3, 50, false⟩] ∧
    ¬ ((Stylist.ctor sample.captionEnv (sample.mkFeature [30] GeomType.Point [] [] [])
        15 0).m_captionRule ≠ none ∧
      (Stylist.ctor sample.captionEnv (sample.mkFeature [30] GeomType.Point [] [] [])
        15 0).m_captionDescriptor.m_mainText ≠ []) := by
  decide

/-- C14, amended: for every feature with a single type whose suitable rules at the zoom
are exactly one Caption rule, kept by the runtime selector, the caption descriptor of the
decision is the one computed by `CaptionDescription::Init` on a fresh descriptor (aux slot
flag: the rule has a second caption), and the captionRule is the rule of that key when the
resulting main text is non-empty and null when it is empty (as for a feature without a
name). -/
theorem Stylist_single_caption (env : Env) (f : FeatureType) (zoomLevel : Nat)
    (deviceLang : Int) (t : Nat) (k : Key) (htypes : f.types = [t])
    (hsuit : env.cl.GetSuitable t zoomLevel f.GetGeomType = [k])
    (hk : k.m_type = caption)
    (hfilter : env.FilterRulesByRuntimeSelector f zoomLevel [k] = [k]) :
    (Stylist.ctor env f zoomLevel deviceLang).m_captionDescriptor =
      ({} : CaptionDescription).Init env.sc f deviceLang zoomLevel f.GetGeomType
        ((env.Find k).GetCaption 1) ∧
    ((Stylist.ctor env f zoomLevel deviceLang).m_captionDescriptor.m_mainText ≠ [] →
      (Stylist.ctor env f zoomLevel deviceLang).m_captionRule = some (env.Find k)) ∧
    ((Stylist.ctor env f zoomLevel deviceLang).m_captionDescriptor.m_mainText = [] →
      (Stylist.ctor env f zoomLevel deviceLang).m_captionRule = none) := by
  have h0 : ¬ caption = area := by decide
  have h1 : ¬ caption = symbol := by decide
  have hkeys : Stylist.collectKeys env f zoomLevel = [k] := by
    unfold Stylist.collectKeys
    rw [htypes]
    simp only [keysLoop, mainOverlayType, List.length_singleton, if_true, List.headD_cons,
      hsuit, typeKeysLoop, true_or, hk, h0, and_false, if_false, List.append_nil]
    exact hfilter
  rcases ctor_cases env f zoomLevel deviceLang with ⟨hnil, _⟩ | ⟨s0, hs0, _, _, hd⟩
  · rw [hkeys] at hnil
    exact absurd hnil (by simp)
  · have hs0' : s0 =
        { m_captionRule := some (env.Find k), m_auxCaptionFound := (env.Find k).GetCaption 1 } := by
      rw [hs0, hkeys]
      simp only [MakeUnique, sort, sortInsert, unique, uniqueFrom, List.foldl_cons,
        List.foldl_nil, Stylist.ProcessKey, hk, h1, if_false, or_true, if_true]
    have hc : s0.m_captionRule ≠ none ∨ s0.m_pathtextRule ≠ none := by
      rw [hs0']; exact Or.inl (by simp)
    obtain ⟨e1, e2, _⟩ := captionStep_spec env s0 f zoomLevel deviceLang f.GetGeomType
      (mainOverlayType env.cl f.types) hc
    rw [hd]
    simp only
    rw [e1, e2, hs0']
    simp only
    refine ⟨by trivial, fun hne => ?_, fun he => ?_⟩
    · rw [if_pos]
      unfold CaptionDescription.IsNameExists
      cases hm : (CaptionDescription.Init env.sc {} f deviceLang zoomLevel f.GetGeomType
        ((env.Find k).GetCaption 1)).m_mainText with
      | nil => exact absurd hm hne
      | cons _ _ => rfl
    · rw [if_neg]
      unfold CaptionDescription.IsNameExists
      rw [he]
      decide

/-- C14, amended, at a concrete input: a Point feature named "Cafe" whose single type has
one Caption rule, at zoom 15. -/
theorem Stylist_single_caption_witness :
    (Stylist.ctor sample.captionEnv (sample.mkFeature [30] GeomType.Point "Cafe".toList [] [])
      15 0).m_captionDescriptor.m_mainText ≠ [] ∧
    (Stylist.ctor sample.captionEnv (sample.mkFeature [30] GeomType.Point "Cafe".toList [] [])
      15 0).m_captionRule = some (sample.captionEnv.Find ⟨15, caption, 3, 50, false⟩) :=
  ⟨by decide,
    (Stylist_single_caption sample.captionEnv
      (sample.mkFeature [30] GeomType.Point "Cafe".toList [] []) 15 0 30
      ⟨15, caption, 3, 50, false⟩ (by decide) (by decide) (by decide) (by decide)).2.1
      (by decide)⟩

/-! ## Claim on the house-number rule -/

theorem Init_fresh_houseNumber (sc : Scales) (f : FeatureType) (deviceLang zoomLevel : Int)
    (geomType : GeomType) (auxCaptionExists : Bool)
    (h : (({} : CaptionDescription).Init sc f deviceLang zoomLevel geomType
      auxCaptionExists).m_houseNumberText ≠ []) :
    geomType ≠ GeomType.Line ∧ zoomLevel ≥ kHousenumbersMinZoom := by
  unfold CaptionDescription.Init at h
  simp only at h
  split_ifs at h with h1 h2 h3
  · exact absurd rfl h
  · exact ⟨h2.1, h2.2.1⟩
  · exact ⟨h2.1, h2.2.1⟩
  · exact absurd rfl h

theorem houseNumberStep_rule (env : Env) (s : Stylist) (f : FeatureType) (zoomLevel : Nat)
    (geomType : GeomType) (main : Nat) (hs : s.m_houseNumberRule = none)
    (h : (houseNumberStep env s f zoomLevel geomType main).m_houseNumberRule ≠ none) :
    env.sc.GetUpperStyleScale ≤ (zoomLevel : Int) ∨
    (geomType = GeomType.Area ∧ env.sc.GetEpsilonForHousenumbers zoomLevel <
      min (f.GetLimitRect zoomLevel).SizeX (f.GetLimitRect zoomLevel).SizeY) ∨
    (geomType ≠ GeomType.Area ∧ env.sc.GetPointHousenumbersScale ≤ (zoomLevel : Int)) := by
  unfold houseNumberStep at h
  simp only at h
  by_cases hz : (zoomLevel : Int) < env.sc.GetUpperStyleScale
  · rw [if_pos hz] at h
    by_cases hg : geomType = GeomType.Area
    · rw [if_pos hg] at h
      by_cases hmin : env.sc.GetEpsilonForHousenumbers zoomLevel <
          min (f.GetLimitRect zoomLevel).SizeX (f.GetLimitRect zoomLevel).SizeY
      · exact Or.inr (Or.inl ⟨hg, hmin⟩)
      · rw [if_neg (by simpa using hmin)] at h
        exact absurd hs h
    · rw [if_neg hg] at h
      by_cases hp : env.sc.GetPointHousenumbersScale ≤ (zoomLevel : Int)
      · exact Or.inr (Or.inr ⟨hg, hp⟩)
      · rw [if_neg (by simpa using hp)] at h
        exact absurd hs h
  · exact Or.inl (not_lt.mp hz)

theorem captionStep_houseNumber (env : Env) (s : Stylist) (f : FeatureType) (zoomLevel : Nat)
    (deviceLang : Int) (geomType : GeomType) (main : Nat) (hs : s.m_houseNumberRule = none)
    (h : (captionStep env s f zoomLevel deviceLang geomType main).m_houseNumberRule ≠ none) :
    (s.m_captionDescriptor.Init env.sc f deviceLang zoomLevel geomType
      s.m_auxCaptionFound).m_houseNumberText ≠ [] ∧
    (captionStep env s f zoomLevel deviceLang geomType main).m_captionDescriptor =
      s.m_captionDescriptor.Init env.sc f deviceLang zoomLevel geomType s.m_auxCaptionFound ∧
    (env.sc.GetUpperStyleScale ≤ (zoomLevel : Int) ∨
      (geomType = GeomType.Area ∧ env.sc.GetEpsilonForHousenumbers zoomLevel <
        min (f.GetLimitRect zoomLevel).SizeX (f.GetLimitRect zoomLevel).SizeY) ∨
      (geomType ≠ GeomType.Area ∧ env.sc.GetPointHousenumbersScale ≤ (zoomLevel : Int))) := by
  by_cases hc : s.m_captionRule ≠ none ∨ s.m_pathtextRule ≠ none
  · have hdesc := (captionStep_spec env s f zoomLevel deviceLang geomType main hc).1
    unfold captionStep at h
    rw [if_pos hc] at h
    simp only at h
    by_cases hn : (s.m_captionDescriptor.Init env.sc f deviceLang zoomLevel geomType
        s.m_auxCaptionFound).IsHouseNumberExists = true
    · rw [if_pos hn] at h
      have hrule : (houseNumberStep env
          { s with
            m_captionDescriptor :=
              s.m_captionDescriptor.Init env.sc f deviceLang zoomLevel geomType
                s.m_auxCaptionFound }
          f zoomLevel geomType main).m_houseNumberRule ≠ none := by
        split_ifs at h <;> exact h
      refine ⟨?_, hdesc, houseNumberStep_rule env _ f zoomLevel geomType main (by exact hs) hrule⟩
      unfold CaptionDescription.IsHouseNumberExists at hn
      intro hnil
      rw [hnil] at hn
      exact absurd hn (by decide)
    · rw [if_neg hn] at h
      have hrule : s.m_houseNumberRule ≠ none := by
        split_ifs at h <;> exact h
      exact absurd hs hrule
  · rw [captionStep_of_no_caption env s f zoomLevel deviceLang geomType main hc] at h
    exact absurd hs h

/-- C16: in every decision built by `Stylist`, a non-null houseNumberRule implies that the
house-number text is non-empty and that either zoom >= the upper style scale, or the
geometry is Area and the smaller side of the feature's limit rect at that zoom is strictly
greater than the zoom's house-number epsilon, or the geometry is Point and zoom >= the
point-housenumbers scale; in particular an Area feature below the upper style scale whose
smaller side does not exceed the epsilon gets no houseNumberRule. -/
theorem Stylist_houseNumber_eligibility (env : Env) (f : FeatureType) (zoomLevel : Nat)
    (deviceLang : Int) :
    ((Stylist.ctor env f zoomLevel deviceLang).m_houseNumberRule ≠ none →
      (Stylist.ctor env f zoomLevel deviceLang).m_captionDescriptor.m_houseNumberText ≠ [] ∧
      (env.sc.GetUpperStyleScale ≤ (zoomLevel : Int) ∨
        (f.GetGeomType = GeomType.Area ∧ env.sc.GetEpsilonForHousenumbers zoomLevel <
          min (f.GetLimitRect zoomLevel).SizeX (f.GetLimitRect zoomLevel).SizeY) ∨
        (f.GetGeomType = GeomType.Point ∧
          env.sc.GetPointHousenumbersScale ≤ (zoomLevel : Int)))) ∧
    (f.GetGeomType = GeomType.Area → (zoomLevel : Int) < env.sc.GetUpperStyleScale →
      min (f.GetLimitRect zoomLevel).SizeX (f.GetLimitRect zoomLevel).SizeY ≤
        env.sc.GetEpsilonForHousenumbers zoomLevel →
      (Stylist.ctor env f zoomLevel deviceLang).m_houseNumberRule = none) := by
  have main : (Stylist.ctor env f zoomLevel deviceLang).m_houseNumberRule ≠ none →
      (Stylist.ctor env f zoomLevel deviceLang).m_captionDescriptor.m_houseNumberText ≠ [] ∧
      (env.sc.GetUpperStyleScale ≤ (zoomLevel : Int) ∨
        (f.GetGeomType = GeomType.Area ∧ env.sc.GetEpsilonForHousenumbers zoomLevel <
          min (f.GetLimitRect zoomLevel).SizeX (f.GetLimitRect zoomLevel).SizeY) ∨
        (f.GetGeomType = GeomType.Point ∧
          env.sc.GetPointHousenumbersScale ≤ (zoomLevel : Int))) := by
    intro h
    rcases ctor_cases env f zoomLevel deviceLang with ⟨_, hd⟩ | ⟨s0, _, hs, hdesc0, hd⟩
    · rw [hd] at h
      exact absurd rfl h
    · rw [hd] at h ⊢
      simp only at h ⊢
      obtain ⟨hn, hdesc, hcases⟩ := captionStep_houseNumber env s0 f zoomLevel deviceLang
        f.GetGeomType (mainOverlayType env.cl f.types) hs h
      rw [hdesc]
      refine ⟨hn, ?_⟩
      rcases hcases with h1 | h2 | ⟨hg, hp⟩
      · exact Or.inl h1
      · exact Or.inr (Or.inl h2)
      · rw [hdesc0] at hn
        have hline := (Init_fresh_houseNumber env.sc f deviceLang zoomLevel f.GetGeomType
          s0.m_auxCaptionFound hn).1
        refine Or.inr (Or.inr ⟨?_, hp⟩)
        cases hgt : f.GetGeomType with
        | Point => rfl
        | Line => exact absurd hgt hline
        | Area => exact absurd hgt hg
  refine ⟨main, fun hg hz hmin => ?_⟩
  by_contra hne
  rcases (main hne).2 with h1 | ⟨_, h2⟩ | ⟨h3, _⟩
  · exact absurd hz (not_lt.mpr h1)
  · exact absurd hmin (not_le.mpr h2)
  · rw [hg] at h3
    exact absurd h3 (by decide)

/-- C16, at a concrete input: a Point feature named "Cafe" with house number "12" at zoom
18, the point-housenumbers scale of the sample configuration. -/
theorem Stylist_houseNumber_eligibility_witness :
    (Stylist.ctor sample.captionEnv
      (sample.mkFeature [30] GeomType.Point "Cafe".toList [] "12".toList) 18 0
      ).m_houseNumberRule ≠ none ∧
    (Stylist.ctor sample.captionEnv
      (sample.mkFeature [30] GeomType.Point "Cafe".toList [] "12".toList) 18 0
      ).m_captionDescriptor.m_houseNumberText ≠ [] :=
  ⟨by decide,
    ((Stylist_houseNumber_eligibility sample.captionEnv
      (sample.mkFeature [30] GeomType.Point "Cafe".toList [] "12".toList) 18 0).1
      (by decide)).1⟩

end df

namespace drule

/-! ## Claims on `CalcAreaBySizeDepth` -/

theorem CalcAreaBySizeDepth_eq (base range : ℝ) (r : m2.RectD) :
    CalcAreaBySizeDepth base range r =
      base + (13 - Real.logb 2 ((r.SizeX : ℝ) * (r.SizeY : ℝ))) * (range / 50) := by
  unfold CalcAreaBySizeDepth
  norm_num

/-- The depth is inside the band exactly when the area is in the range that the code
assumes: `2^-37 < area <= 2^13`. -/
theorem CalcAreaBySizeDepth_in_band_iff (base range : ℝ) (r : m2.RectD) (hrange : 0 < range)
    (harea : 0 < (r.SizeX : ℝ) * (r.SizeY : ℝ)) :
    (base ≤ CalcAreaBySizeDepth base range r ∧
      CalcAreaBySizeDepth base range r < base + range) ↔
    ((2 : ℝ) ^ (-37 : ℝ) < (r.SizeX : ℝ) * (r.SizeY : ℝ) ∧
      (r.SizeX : ℝ) * (r.SizeY : ℝ) ≤ (2 : ℝ) ^ (13 : ℝ)) := by
  rw [CalcAreaBySizeDepth_eq]
  have h2 : (1 : ℝ) < 2 := by norm_num
  have h50 : (0 : ℝ) < range / 50 := by positivity
  rw [← Real.lt_logb_iff_rpow_lt h2 harea, ← Real.logb_le_iff_le_rpow h2 harea]
  constructor
  · rintro ⟨hlo, hhi⟩
    constructor
    · by_contra hc
      have : (50 : ℝ) ≤ 13 - Real.logb 2 ((r.SizeX : ℝ) * (r.SizeY : ℝ)) := by linarith
      have := mul_le_mul_of_nonneg_right this h50.le
      have e : (50 : ℝ) * (range / 50) = range := by field_simp
      linarith
    · by_contra hc
      have : 13 - Real.logb 2 ((r.SizeX : ℝ) * (r.SizeY : ℝ)) < 0 := by linarith
      have := mul_neg_of_neg_of_pos this h50
      linarith
  · rintro ⟨hlo, hhi⟩
    constructor
    · have : 0 ≤ (13 - Real.logb 2 ((r.SizeX : ℝ) * (r.SizeY : ℝ))) * (range / 50) :=
        mul_nonneg (by linarith) h50.le
      linarith
    · have h1 : 13 - Real.logb 2 ((r.SizeX : ℝ) * (r.SizeY : ℝ)) < 50 := by linarith
      have := mul_lt_mul_of_pos_right h1 h50
      have e : (50 : ℝ) * (range / 50) = range := by field_simp
      linarith

theorem logb_two_area_128 :
    Real.logb 2 ((((128 : ℚ) : ℝ)) * (((128 : ℚ) : ℝ))) = 14 := by
  have h : (((128 : ℚ) : ℝ)) * (((128 : ℚ) : ℝ)) = (2 : ℝ) ^ (14 : ℕ) := by norm_num
  rw [h, Real.logb_pow, Real.logb_self_eq_one (by norm_num)]
  norm_num

/-- C19, failing input: a limit rect of 128 by 128 (area 2^14, inside the 360 by 360
extent of the map). The depth is `kBaseDepthBgBySize - kDepthRangeBgBySize / 50`, below the
band; with the band [-11000, -10100) it is -11018. -/
theorem CalcAreaBySizeDepth_out_of_band :
    (∀ base range : ℝ,
      CalcAreaBySizeDepth base range { SizeX := 128, SizeY := 128 } = base - range / 50) ∧
    ¬ ((-11000 : ℝ) ≤ CalcAreaBySizeDepth (-11000) 900 { SizeX := 128, SizeY := 128 } ∧
      CalcAreaBySizeDepth (-11000) 900 { SizeX := 128, SizeY := 128 } < -11000 + 900) := by
  have h : ∀ base range : ℝ,
      CalcAreaBySizeDepth base range { SizeX := 128, SizeY := 128 } = base - range / 50 := by
    intro base range
    rw [CalcAreaBySizeDepth_eq]
    simp only
    rw [logb_two_area_128]
    ring
  refine ⟨h, ?_⟩
  rw [h]
  norm_num

end drule

namespace df

open drule feature

/-! ## Behaviour of `CaptionDescription::Init`: truncation and house number -/

/-- C21: for every call of `Init` in which the low-zoom guard does not fire and the
house-number step does not clear the main text, the resulting main text is the primary
name when the name is at most 200 bytes long, and otherwise the first 200 bytes of the
name followed by "..."; so the ellipsis is appended exactly when the name is truncated. -/
theorem Init_hard_truncation (sc : Scales) (self : CaptionDescription) (f : FeatureType)
    (deviceLang zoomLevel : Int) (geomType : GeomType) (auxCaptionExists : Bool)
    (hguard : ¬ (zoomLevel ≤ 4 ∧
      (self.fetchNames sc f deviceLang zoomLevel geomType auxCaptionExists).1.length > 50))
    (hkeep : ¬ (geomType ≠ GeomType.Line ∧ zoomLevel ≥ 16 ∧ auxCaptionExists = true ∧
      f.GetHouseNumber ≠ [] ∧
      truncateMainText
        (self.fetchNames sc f deviceLang zoomLevel geomType auxCaptionExists).1 ≠ [] ∧
      truncateMainText (self.fetchNames sc f deviceLang zoomLevel geomType auxCaptionExists).1
        <:+: f.GetHouseNumber)) :
    (self.Init sc f deviceLang zoomLevel geomType auxCaptionExists).m_mainText =
      (if (self.fetchNames sc f deviceLang zoomLevel geomType auxCaptionExists).1.length ≤ 200
       then (self.fetchNames sc f deviceLang zoomLevel geomType auxCaptionExists).1
       else (self.fetchNames sc f deviceLang zoomLevel geomType auxCaptionExists).1.take 200 ++
        ['.', '.', '.']) := by
  have htrunc : truncateMainText
      (self.fetchNames sc f deviceLang zoomLevel geomType auxCaptionExists).1 =
      (if (self.fetchNames sc f deviceLang zoomLevel geomType auxCaptionExists).1.length ≤ 200
       then (self.fetchNames sc f deviceLang zoomLevel geomType auxCaptionExists).1
       else (self.fetchNames sc f deviceLang zoomLevel geomType auxCaptionExists).1.take 200 ++
        ['.', '.', '.']) := by
    unfold truncateMainText kMaxTextSize
    split_ifs with h1 h2 h2
    · omega
    · rfl
    · rfl
    · omega
  have hguard2 : ¬ (zoomLevel ≤ kLongCaptionsMaxZoom ∧
      (self.fetchNames sc f deviceLang zoomLevel geomType auxCaptionExists).1.length >
        kLowWorldMaxTextSize) := hguard
  rw [← htrunc]
  unfold CaptionDescription.Init
  simp only
  rw [if_neg hguard2]
  split_ifs with h2 h3
  · exfalso
    apply hkeep
    have hne : truncateMainText
        (self.fetchNames sc f deviceLang zoomLevel geomType auxCaptionExists).1 ≠ [] := by
      intro e
      rw [e] at h3
      exact absurd h3.2.1 (by decide)
    have haux : auxCaptionExists = true := by
      rcases h2.2.2 with h | h
      · exact h
      · rw [List.isEmpty_iff] at h
        exact absurd h hne
    refine ⟨h2.1, h2.2.1, haux, ?_, hne, (find_ne_none_iff _ _).mp h3.2.2⟩
    intro e
    rw [e] at h3
    exact absurd h3.1 (by decide)
  · rfl
  · rfl

/-- C21, at a concrete input: a name of 201 bytes at zoom 10 becomes its first 200 bytes
followed by "...". -/
theorem Init_hard_truncation_witness :
    (({} : CaptionDescription).Init sample.scales
      (sample.mkFeature [5] GeomType.Point (List.replicate 201 'a') [] []) 0 10
      GeomType.Point false).m_mainText = List.replicate 200 'a' ++ ['.', '.', '.'] :=
  (Init_hard_truncation sample.scales {}
    (sample.mkFeature [5] GeomType.Point (List.replicate 201 'a') [] []) 0 10
    GeomType.Point false (by decide) (by decide)).trans
    (by set_option maxRecDepth 100000 in decide)

/-- C22: after `Init` on a fresh descriptor the house-number text is non-empty only if the
geometry is not Line, zoom >= 16, and an aux caption slot exists or the main text after the
truncation step is empty; when these three conditions hold and the low-zoom guard does not
fire, the house-number text is the feature's house number. -/
theorem Init_fresh_houseNumber_text (sc : Scales) (f : FeatureType) (deviceLang zoomLevel : Int)
    (geomType : GeomType) (auxCaptionExists : Bool) :
    ((({} : CaptionDescription).Init sc f deviceLang zoomLevel geomType
        auxCaptionExists).m_houseNumberText ≠ [] →
      geomType ≠ GeomType.Line ∧ zoomLevel ≥ 16 ∧
      (auxCaptionExists = true ∨ truncateMainText
        (({} : CaptionDescription).fetchNames sc f deviceLang zoomLevel geomType
          auxCaptionExists).1 = [])) ∧
    (geomType ≠ GeomType.Line → zoomLevel ≥ 16 →
      (auxCaptionExists = true ∨ truncateMainText
        (({} : CaptionDescription).fetchNames sc f deviceLang zoomLevel geomType
          auxCaptionExists).1 = []) →
      ¬ (zoomLevel ≤ 4 ∧ (({} : CaptionDescription).fetchNames sc f deviceLang zoomLevel
        geomType auxCaptionExists).1.length > 50) →
      (({} : CaptionDescription).Init sc f deviceLang zoomLevel geomType
        auxCaptionExists).m_houseNumberText = f.GetHouseNumber) := by
  constructor
  · intro h
    unfold CaptionDescription.Init at h
    simp only at h
    split_ifs at h with h1 h2 h3
    · exact absurd rfl h
    · exact ⟨h2.1, h2.2.1, h2.2.2.imp id List.isEmpty_iff.mp⟩
    · exact ⟨h2.1, h2.2.1, h2.2.2.imp id List.isEmpty_iff.mp⟩
    · exact absurd rfl h
  · intro hgeom hzoom hslot hguard
    have hguard2 : ¬ (zoomLevel ≤ kLongCaptionsMaxZoom ∧
        (({} : CaptionDescription).fetchNames sc f deviceLang zoomLevel geomType
          auxCaptionExists).1.length > kLowWorldMaxTextSize) := hguard
    have hreach : geomType ≠ GeomType.Line ∧ zoomLevel ≥ kHousenumbersMinZoom ∧
        (auxCaptionExists = true ∨ (truncateMainText
          (({} : CaptionDescription).fetchNames sc f deviceLang zoomLevel geomType
            auxCaptionExists).1).isEmpty = true) :=
      ⟨hgeom, hzoom, hslot.imp id List.isEmpty_iff.mpr⟩
    unfold CaptionDescription.Init
    simp only
    rw [if_neg hguard2, if_pos hreach]
    split_ifs <;> rfl

/-- C22, at a concrete input: a Point feature with house number "12" at zoom 17 with an aux
caption slot. -/
theorem Init_fresh_houseNumber_text_witness :
    (({} : CaptionDescription).Init sample.scales
      (sample.mkFeature [5] GeomType.Point "Cafe".toList [] "12".toList) 0 17
      GeomType.Point true).m_houseNumberText = "12".toList :=
  (Init_fresh_houseNumber_text sample.scales
    (sample.mkFeature [5] GeomType.Point "Cafe".toList [] "12".toList) 0 17
    GeomType.Point true).2 (by decide) (by decide) (Or.inl rfl) (by decide)

/-! ## Hatching tagging of the accumulated keys -/

/-- C23: when the per-type suitable-rule lookup returns keys with the hatching flag unset,
every key of the accumulated key set is the key pushed for some key `k0` returned for one of
the feature's types `t`; it carries the hatching flag exactly when it is of kind Area and
`t` is matched by `IsHatchingTerritoryChecker`, and it is `k0` unchanged when it is of
another kind or `t` is not matched. -/
theorem accumulatedKeys_hatching (env : Env) (f : FeatureType) (zoomLevel : Nat)
    (hraw : ∀ t ∈ f.types, ∀ k0 ∈ env.cl.GetSuitable t zoomLevel f.GetGeomType,
      k0.m_hatching = false) :
    ∀ k ∈ Stylist.accumulatedKeys env f zoomLevel,
      ∃ t ∈ f.types, ∃ k0 ∈ env.cl.GetSuitable t zoomLevel f.GetGeomType,
        k = tagHatching (hasHatching env t) k0 ∧
        (k.m_hatching = true ↔ (k.m_type = area ∧ hasHatching env t = true)) ∧
        ((k.m_type ≠ area ∨ hasHatching env t = false) → k = k0) := by
  intro k hk
  obtain ⟨t, ht, k0, hk0, _, hkeq⟩ := mem_keysLoop.mp hk
  have hflag := hraw t ht k0 hk0
  refine ⟨t, ht, k0, hk0, hkeq, ?_, ?_⟩
  · rw [hkeq]
    unfold tagHatching
    by_cases hc : hasHatching env t = true ∧ k0.m_type = area
    · rw [if_pos hc]
      simp only [true_iff]
      exact ⟨hc.2, hc.1⟩
    · rw [if_neg hc, hflag]
      constructor
      · intro h; exact absurd h (by decide)
      · intro h; exact absurd ⟨h.2, h.1⟩ hc
  · intro h
    rw [hkeq]
    unfold tagHatching
    rw [if_neg]
    rintro ⟨h1, h2⟩
    rcases h with h | h
    · apply h
      rw [hkeq]
      unfold tagHatching
      rw [if_pos ⟨h1, h2⟩]
      exact h2
    · rw [h1] at h
      exact absurd h (by decide)

/-- C23, at a concrete input: the Area key of the national park type of the sample
classifier is accumulated with the hatching flag set. -/
theorem accumulatedKeys_hatching_witness :
    ∃ t ∈ [10], ∃ k0 ∈ sample.env.cl.GetSuitable t 15 GeomType.Area,
      (⟨15, area, 0, 100, true⟩ : Key) = tagHatching (hasHatching sample.env t) k0 ∧
      ((⟨15, area, 0, 100, true⟩ : Key).m_hatching = true ↔
        ((⟨15, area, 0, 100, true⟩ : Key).m_type = area ∧ hasHatching sample.env t = true)) ∧
      (((⟨15, area, 0, 100, true⟩ : Key).m_type ≠ area ∨ hasHatching sample.env t = false) →
        (⟨15, area, 0, 100, true⟩ : Key) = k0) :=
  accumulatedKeys_hatching sample.env (sample.mkFeature [10] GeomType.Area [] [] []) 15
    (by decide) ⟨15, area, 0, 100, true⟩ (by decide)

end df

namespace drule

/-! ## The comparator against the data model, and as a strict weak ordering -/

/-- C24, counterexample: two Symbol keys with different hatching flags; `less_key` puts the
hatching key of priority 1 before the non-hatching key of priority 5, while the ordering of
the data model compares the priorities. -/
theorem less_key_model_counterexample :
    less_key ⟨1, symbol, 1, 1, true⟩ ⟨1, symbol, 2, 5, false⟩ = true ∧
    less_key_model ⟨1, symbol, 1, 1, true⟩ ⟨1, symbol, 2, 5, false⟩ = false ∧
    ¬ ((1 : Int) > 5) := by
  decide

/-- C24, amended: `less_key` equals the ordering of the data model on every pair of keys in
which only Area keys carry the hatching flag: keys of different kinds are ordered by kind,
two Area keys with different hatching flags hatching-first, and otherwise `r1` precedes `r2`
exactly when `r1.priority > r2.priority`. On two keys of the same kind with different
hatching flags `less_key` orders hatching-first whatever the kind. -/
theorem less_key_eq_model (r1 r2 : Key) :
    ((r1.m_type ≠ area → r1.m_hatching = false) → (r2.m_type ≠ area → r2.m_hatching = false) →
      less_key r1 r2 = less_key_model r1 r2) ∧
    (r1.m_type = r2.m_type → r1.m_hatching ≠ r2.m_hatching →
      less_key r1 r2 = r1.m_hatching) := by
  rcases r1 with ⟨s1, t1, i1, p1, h1⟩
  rcases r2 with ⟨s2, t2, i2, p2, h2⟩
  unfold less_key less_key_model
  simp only
  constructor
  · intro ha hb
    by_cases ht : t1 = t2
    · subst ht
      by_cases hA : t1 = area
      · simp [hA]
      · rw [ha hA, hb hA]
        simp [hA]
    · simp [ht]
  · intro ht hh
    rw [if_pos ht, if_pos hh]

/-- C24, amended, at a concrete input: a hatching and a non-hatching Area key. -/
theorem less_key_eq_model_witness :
    less_key ⟨1, area, 1, 1, true⟩ ⟨1, area, 2, 5, false⟩ =
      less_key_model ⟨1, area, 1, 1, true⟩ ⟨1, area, 2, 5, false⟩ :=
  (less_key_eq_model ⟨1, area, 1, 1, true⟩ ⟨1, area, 2, 5, false⟩).1 (by decide) (by decide)

theorem less_key_iff_lexKey (r1 r2 : Key) : less_key r1 r2 = true ↔ lexKey r1 < lexKey r2 := by
  rcases r1 with ⟨s1, t1, i1, p1, h1⟩
  rcases r2 with ⟨s2, t2, i2, p2, h2⟩
  unfold less_key lexKey
  rw [Prod.Lex.lt_iff]
  simp only
  rw [Prod.Lex.lt_iff]
  simp only
  by_cases ht : t1 = t2
  · subst ht
    cases h1 <;> cases h2 <;> simp
  · simp only [ht, if_false, decide_eq_true_eq, false_and, or_false]

/-- C27: `less_key` is a strict weak ordering: it is irreflexive and transitive, and
incomparability under it is transitive; it is the lexicographic order on (kind ascending,
hatching-true first, priority descending). -/
theorem less_key_strict_weak_order :
    (∀ a : Key, less_key a a = false) ∧
    (∀ a b c : Key, less_key a b = true → less_key b c = true → less_key a c = true) ∧
    (∀ a b c : Key, (less_key a b = false ∧ less_key b a = false) →
      (less_key b c = false ∧ less_key c b = false) →
      (less_key a c = false ∧ less_key c a = false)) ∧
    (∀ a b : Key, less_key a b = true ↔ lexKey a < lexKey b) := by
  refine ⟨?_, ?_, ?_, less_key_iff_lexKey⟩
  · intro a
    cases h : less_key a a
    · rfl
    · have := less_key_asymm a a h
      rw [h] at this
      exact absurd this (by decide)
  · intro a b c hab hbc
    rw [less_key_iff_lexKey] at hab hbc ⊢
    exact lt_trans hab hbc
  · rintro a b c ⟨hab, hba⟩ ⟨hbc, hcb⟩
    exact ⟨less_key_negtrans c b a hbc hab, less_key_negtrans a b c hba hcb⟩

/-! ## A second application of `MakeUnique` -/

theorem uniqueFrom_idem {α : Type} (p : α → α → Bool) :
    ∀ (l : List α) (r : α), uniqueFrom p r (uniqueFrom p r l) = uniqueFrom p r l
  | [], _ => rfl
  | x :: xs, r => by
    by_cases h : p r x = true
    · have e : uniqueFrom p r (x :: xs) = uniqueFrom p r xs := by
        rw [uniqueFrom, if_pos h]
      rw [e]
      exact uniqueFrom_idem p xs r
    · have e : uniqueFrom p r (x :: xs) = x :: uniqueFrom p x xs := by
        rw [uniqueFrom, if_neg h]
      rw [e, uniqueFrom, if_neg h, uniqueFrom_idem p xs x]

theorem unique_idem {α : Type} (p : α → α → Bool) :
    ∀ l : List α, unique p (unique p l) = unique p l
  | [] => rfl
  | x :: xs => by
    show x :: uniqueFrom p x (uniqueFrom p x xs) = x :: uniqueFrom p x xs
    rw [uniqueFrom_idem p xs x]

theorem less_key_tie {a b : Key} (h1 : less_key a b = false) (h2 : less_key b a = false) :
    a.m_type = b.m_type ∧ a.m_hatching = b.m_hatching ∧ a.m_priority = b.m_priority := by
  unfold less_key at h1 h2
  rcases a with ⟨sa, ta, ia, pa, ha⟩
  rcases b with ⟨sb, tb, ib, pb, hb⟩
  simp only at h1 h2 ⊢
  by_cases e1 : ta = tb
  · subst e1
    cases ha <;> cases hb <;> simp_all <;> omega
  · have e2 : ¬ tb = ta := fun e => e1 e.symm
    simp only [e1, e2, if_false, decide_eq_false_iff_not] at h1 h2
    omega

theorem MakeUniqueOf_class_length {P : Key → Bool} (hP : CollapsedClass P) (sorted : List Key)
    (hs : sorted.Pairwise (fun a b => less_key b a = false)) :
    ((MakeUniqueOf sorted).filter P).length ≤ 1 := by
  have hfil : (MakeUniqueOf sorted).filter P = ((sorted.filter P).head?).toList :=
    filter_unique_class hP sorted hs
  rw [hfil]
  cases (List.filter P sorted).head? <;> simp

/-- When no two Line keys of the input have the same priority and hatching flag, the output
is strictly ordered by `less_key`. -/
theorem MakeUniqueOf_strictly_sorted (keys sorted : List Key)
    (hs : IsSortOf less_key sorted keys)
    (hties : (keys.filter isLine).Pairwise
      (fun a b => ¬ (a.m_priority = b.m_priority ∧ a.m_hatching = b.m_hatching))) :
    (MakeUniqueOf sorted).Pairwise (fun a b => less_key a b = true) := by
  have hsub : (MakeUniqueOf sorted).Sublist sorted := unique_sublist equal_key _
  have hties2 : (sorted.filter isLine).Pairwise
      (fun a b => ¬ (a.m_priority = b.m_priority ∧ a.m_hatching = b.m_hatching)) :=
    (hs.1.filter isLine).symm.pairwise hties
      (fun h e => h ⟨e.1.symm, e.2.symm⟩)
  rw [List.pairwise_iff_forall_sublist]
  intro a b hab
  have hle : less_key b a = false :=
    (List.pairwise_iff_forall_sublist.mp (hs.2.sublist hsub)) hab
  cases hlt : less_key a b with
  | true => rfl
  | false =>
    exfalso
    obtain ⟨ht, hh, hp⟩ := less_key_tie hlt hle
    by_cases hline : a.m_type = line
    · have hla : isLine a = true := by unfold isLine; simpa using hline
      have hlb : isLine b = true := by unfold isLine; rw [← ht]; simpa using hline
      have hsub2 : ([a, b].filter isLine).Sublist (sorted.filter isLine) :=
        (hab.trans hsub).filter isLine
      have hfil : [a, b].filter isLine = [a, b] := by
        simp [List.filter_cons, hla, hlb]
      rw [hfil] at hsub2
      exact (List.pairwise_iff_forall_sublist.mp hties2) hsub2 ⟨hp, hh⟩
    · have hclass : ∀ {P : Key → Bool}, CollapsedClass P → P a = true → P b = true → False := by
        intro P hP hPa hPb
        have hlen := MakeUniqueOf_class_length hP sorted hs.2
        have hsub2 : ([a, b].filter P).Sublist ((MakeUniqueOf sorted).filter P) :=
          hab.filter P
        have hfil : [a, b].filter P = [a, b] := by
          simp [List.filter_cons, hPa, hPb]
        rw [hfil] at hsub2
        have := hsub2.length_le
        simp only [List.length_cons, List.length_nil] at this
        omega
      by_cases harea : a.m_type = area
      · exact hclass (collapsedClass_area a.m_hatching) (by simp [harea])
          (by simp [← ht, ← hh, harea])
      · exact hclass (collapsedClass_kind a.m_type hline harea) (by simp)
          (by simp [ht])

/-- A sequence strictly ordered by `less_key` has only itself as an admissible result of
`std::sort`. -/
theorem isSortOf_eq_of_strictly_sorted (out sorted2 : List Key)
    (hout : out.Pairwise (fun a b => less_key a b = true))
    (hs : IsSortOf less_key sorted2 out) : sorted2 = out := by
  have hirr : ∀ a : Key, less_key a a = false := by
    intro a
    cases h : less_key a a
    · rfl
    · have := less_key_asymm a a h
      rw [h] at this
      exact absurd this (by decide)
  have hnodup : out.Nodup := by
    refine hout.imp ?_
    intro a b hab e
    subst e
    rw [hirr a] at hab
    exact absurd hab (by decide)
  have hnodup2 : sorted2.Nodup := hs.1.symm.nodup_iff.mp hnodup
  have htot : ∀ ⦃a⦄, a ∈ out → ∀ ⦃b⦄, b ∈ out → a ≠ b →
      (less_key a b = true ∨ less_key b a = true) :=
    List.Pairwise.forall (fun _ _ h => h.symm) (hout.imp (fun h => Or.inl h))
  have hstrict : sorted2.Pairwise (fun a b => less_key a b = true) := by
    rw [List.pairwise_iff_forall_sublist]
    intro a b hab
    have hle : less_key b a = false := (List.pairwise_iff_forall_sublist.mp hs.2) hab
    have hne : a ≠ b := (List.pairwise_iff_forall_sublist.mp hnodup2) hab
    have ha : a ∈ out := hs.1.mem_iff.mp (hab.subset (List.mem_cons_self _ _))
    have hb : b ∈ out :=
      hs.1.mem_iff.mp (hab.subset (List.mem_cons_of_mem _ (List.mem_cons_self _ _)))
    rcases htot ha hb hne with h | h
    · exact h
    · rw [hle] at h
      exact absurd h (by decide)
  haveI : IsAntisymm Key (fun a b => less_key a b = true) :=
    ⟨fun a b h1 h2 => by
      rw [less_key_asymm a b h1] at h2
      exact absurd h2 (by decide)⟩
  exact List.eq_of_perm_of_sorted hs.1 hstrict hout

/-- C26, counterexample: seventeen different Line keys of one priority, indices 0 to 16
in the input. `less_key` distinguishes none of them, so every order is an admissible result
of `std::sort`; the two orders below are the ones a median-of-three introsort with a
threshold of 16 elements leaves (pivot swap of positions 0 and 8, then positions 1 to 16
reversed by the partition): first `8, 16, 15, .., 9, 0, 7, .., 1`, which `std::unique`
keeps whole, and on that output `9, 1, .., 7, 0, 8, 10, .., 16`. The second output differs
from the first. -/
theorem MakeUnique_idempotent_counterexample :
    IsSortOf less_key
      (sample.tiedLineKeys [8, 16, 15, 14, 13, 12, 11, 10, 9, 0, 7, 6, 5, 4, 3, 2, 1])
      (sample.tiedLineKeys [0, 1, 2, 3, 4, 5, 6, 7, 8, 9, 10, 11, 12, 13, 14, 15, 16]) ∧
    MakeUniqueOf
        (sample.tiedLineKeys [8, 16, 15, 14, 13, 12, 11, 10, 9, 0, 7, 6, 5, 4, 3, 2, 1]) =
      sample.tiedLineKeys [8, 16, 15, 14, 13, 12, 11, 10, 9, 0, 7, 6, 5, 4, 3, 2, 1] ∧
    IsSortOf less_key
      (sample.tiedLineKeys [9, 1, 2, 3, 4, 5, 6, 7, 0, 8, 10, 11, 12, 13, 14, 15, 16])
      (MakeUniqueOf
        (sample.tiedLineKeys [8, 16, 15, 14, 13, 12, 11, 10, 9, 0, 7, 6, 5, 4, 3, 2, 1])) ∧
    MakeUniqueOf
        (sample.tiedLineKeys [9, 1, 2, 3, 4, 5, 6, 7, 0, 8, 10, 11, 12, 13, 14, 15, 16]) =
      sample.tiedLineKeys [9, 1, 2, 3, 4, 5, 6, 7, 0, 8, 10, 11, 12, 13, 14, 15, 16] ∧
    ¬ (MakeUniqueOf
        (sample.tiedLineKeys [9, 1, 2, 3, 4, 5, 6, 7, 0, 8, 10, 11, 12, 13, 14, 15, 16]) =
      MakeUniqueOf
        (sample.tiedLineKeys [8, 16, 15, 14, 13, 12, 11, 10, 9, 0, 7, 6, 5, 4, 3, 2, 1])) := by
  set_option maxRecDepth 100000 in
  refine ⟨⟨by decide, by decide⟩, by decide, ⟨by decide, by decide⟩, by decide, by decide⟩

/-- C26, amended: whatever admissible order `std::sort` leaves, the output of `MakeUnique`
is a subsequence of the sorted input, so every output key is an input key and the output
is not longer than the input; the output is itself sorted and `std::unique` leaves it
unchanged, so a second application returns the same sequence whenever the sort leaves the
already sorted sequence as it is; in every case the second output holds only keys of the
first and is not longer; and when no two Line keys of the input have the same priority and
hatching flag the second application returns the same sequence. -/
theorem MakeUnique_second_application (keys sorted : List Key)
    (hs : IsSortOf less_key sorted keys) :
    (MakeUniqueOf sorted).Sublist sorted ∧
    (∀ k ∈ MakeUniqueOf sorted, k ∈ keys) ∧
    (MakeUniqueOf sorted).length ≤ keys.length ∧
    IsSortOf less_key (MakeUniqueOf sorted) (MakeUniqueOf sorted) ∧
    MakeUniqueOf (MakeUniqueOf sorted) = MakeUniqueOf sorted ∧
    (∀ sorted2, IsSortOf less_key sorted2 (MakeUniqueOf sorted) →
      (∀ k ∈ MakeUniqueOf sorted2, k ∈ MakeUniqueOf sorted) ∧
      (MakeUniqueOf sorted2).length ≤ (MakeUniqueOf sorted).length) ∧
    ((keys.filter isLine).Pairwise
        (fun a b => ¬ (a.m_priority = b.m_priority ∧ a.m_hatching = b.m_hatching)) →
      ∀ sorted2, IsSortOf less_key sorted2 (MakeUniqueOf sorted) →
        MakeUniqueOf sorted2 = MakeUniqueOf sorted) := by
  have hsub : (MakeUniqueOf sorted).Sublist sorted := unique_sublist equal_key _
  have hidem : MakeUniqueOf (MakeUniqueOf sorted) = MakeUniqueOf sorted :=
    unique_idem equal_key sorted
  refine ⟨hsub, fun k hk => hs.1.mem_iff.mp (hsub.subset hk), ?_,
    ⟨List.Perm.refl _, hs.2.sublist hsub⟩, hidem, fun sorted2 hs2 => ⟨fun k hk => ?_, ?_⟩,
    fun hties sorted2 hs2 => ?_⟩
  · rw [← hs.1.length_eq]
    exact hsub.length_le
  · exact hs2.1.mem_iff.mp ((unique_sublist equal_key sorted2).subset hk)
  · rw [← hs2.1.length_eq]
    exact (unique_sublist equal_key sorted2).length_le
  · have hstrict := MakeUniqueOf_strictly_sorted keys sorted hs hties
    rw [isSortOf_eq_of_strictly_sorted _ sorted2 hstrict hs2]
    exact hidem

/-- C26, amended, at a concrete input: a Symbol key and two Line keys of different
priorities; the first output is `[line 2, line 1, symbol]`. -/
theorem MakeUnique_second_application_witness :
    IsSortOf less_key
      [⟨1, line, 2, 2, false⟩, ⟨1, line, 1, 1, false⟩, ⟨1, symbol, 3, 7, false⟩,
        ⟨1, symbol, 4, 6, false⟩]
      [⟨1, symbol, 3, 7, false⟩, ⟨1, line, 1, 1, false⟩, ⟨1, line, 2, 2, false⟩,
        ⟨1, symbol, 4, 6, false⟩] ∧
    MakeUniqueOf (MakeUniqueOf
      [⟨1, line, 2, 2, false⟩, ⟨1, line, 1, 1, false⟩, ⟨1, symbol, 3, 7, false⟩,
        ⟨1, symbol, 4, 6, false⟩]) =
      MakeUniqueOf [⟨1, line, 2, 2, false⟩, ⟨1, line, 1, 1, false⟩, ⟨1, symbol, 3, 7, false⟩,
        ⟨1, symbol, 4, 6, false⟩] :=
  ⟨⟨by decide, by decide⟩,
    (MakeUnique_second_application
      [⟨1, symbol, 3, 7, false⟩, ⟨1, line, 1, 1, false⟩, ⟨1, line, 2, 2, false⟩,
        ⟨1, symbol, 4, 6, false⟩]
      [⟨1, line, 2, 2, false⟩, ⟨1, line, 1, 1, false⟩, ⟨1, symbol, 3, 7, false⟩,
        ⟨1, symbol, 4, 6, false⟩]
      ⟨by decide, by decide⟩).2.2.2.2.1⟩

end drule

namespace df

open drule feature

/-! ## Assertions of the house-number branch -/

theorem geomAssert_pathtext {geomType : GeomType} {k : Key} (hk : keySlot k = some Slot.pathtext)
    (h : geomAssert geomType k = true) : geomType = GeomType.Line := by
  have ht : k.m_type = pathtext := (keySlot_overlay hk (by decide)).2.2.2.1 rfl
  unfold geomAssert at h
  rw [ht] at h
  have h1 : ¬ pathtext = symbol := by decide
  have h2 : ¬ pathtext = caption := by decide
  simp only [h1, h2, if_false, true_or, if_true, decide_eq_true_eq] at h
  exact h

/-- The geometry check is not vacuous: a PathText key passes on Line geometry and fails on
Point geometry. -/
theorem geomAssert_detects_mismatch :
    geomAssert GeomType.Line ⟨1, pathtext, 1, 1, false⟩ = true ∧
    geomAssert GeomType.Point ⟨1, pathtext, 1, 1, false⟩ = false := by
  decide

/-- C25: at line 213, inside the test of line 209, when the caption descriptor computed by
`Init` reports that a house number exists: the geometry is not Line, so in the non-Area
branch it is Point (the `ASSERT_EQUAL` of line 227 holds); and, provided the geometry
assertion of `ProcessKey` held for every processed key, the captionRule is non-null, so the
`ASSERT` of line 239 holds when the rule is reused as the house-number rule. -/
theorem Stylist_houseNumber_branch_safe (env : Env) (f : FeatureType) (zoomLevel : Nat)
    (deviceLang : Int)
    (hcap : (Stylist.afterProcessKeys env f zoomLevel).m_captionRule ≠ none ∨
      (Stylist.afterProcessKeys env f zoomLevel).m_pathtextRule ≠ none)
    (hhn : ((Stylist.afterProcessKeys env f zoomLevel).m_captionDescriptor.Init env.sc f
      deviceLang zoomLevel f.GetGeomType
      (Stylist.afterProcessKeys env f zoomLevel).m_auxCaptionFound).IsHouseNumberExists = true) :
    f.GetGeomType ≠ GeomType.Line ∧
    (f.GetGeomType ≠ GeomType.Area → f.GetGeomType = GeomType.Point) ∧
    ((∀ k ∈ MakeUnique (Stylist.collectKeys env f zoomLevel),
        geomAssert f.GetGeomType k = true) →
      (Stylist.afterProcessKeys env f zoomLevel).m_captionRule ≠ none) := by
  have hfresh : (Stylist.afterProcessKeys env f zoomLevel).m_captionDescriptor = {} :=
    (foldl_processKey_frame env f _ _).2
  have hline : f.GetGeomType ≠ GeomType.Line := by
    rw [hfresh] at hhn
    refine (Init_fresh_houseNumber env.sc f deviceLang zoomLevel f.GetGeomType
      (Stylist.afterProcessKeys env f zoomLevel).m_auxCaptionFound ?_).1
    unfold CaptionDescription.IsHouseNumberExists at hhn
    intro hnil
    rw [hnil] at hhn
    exact absurd hhn (by decide)
  refine ⟨hline, fun hna => ?_, fun hgeom hnone => ?_⟩
  · cases hg : f.GetGeomType with
    | Point => rfl
    | Line => exact absurd hg hline
    | Area => exact absurd hg hna
  · rcases hcap with h | h
    · exact h hnone
    · cases hp : (Stylist.afterProcessKeys env f zoomLevel).m_pathtextRule with
      | none => exact h hp
      | some r =>
        have hslot : (Stylist.afterProcessKeys env f zoomLevel).slot Slot.pathtext = some r := hp
        rcases foldl_processKey_slot env f Slot.pathtext r _ _ hslot with h2 | ⟨k, hk, hks, _⟩
        · rw [slot_default] at h2
          exact absurd h2 (by simp)
        · exact hline (geomAssert_pathtext hks (hgeom k hk))

/-- C25, at a concrete input: a Point feature named "Cafe" with house number "12" at zoom
18, whose single type has a Caption rule. -/
theorem Stylist_houseNumber_branch_safe_witness :
    (sample.mkFeature [30] GeomType.Point "Cafe".toList [] "12".toList).GetGeomType ≠
      GeomType.Line ∧
    (Stylist.afterProcessKeys sample.captionEnv
      (sample.mkFeature [30] GeomType.Point "Cafe".toList [] "12".toList) 18).m_captionRule
      ≠ none :=
  have h := Stylist_houseNumber_branch_safe sample.captionEnv
    (sample.mkFeature [30] GeomType.Point "Cafe".toList [] "12".toList) 18 0
    (by decide) (by decide)
  ⟨h.1, h.2.2 (by decide)⟩

end df
